import Mathlib

/-!
# CLispy: a shallow embedding of the evaluator core (`main.c`, `mathutil.c`)

Conventions of the embedding.

* `long` is a 64-bit two's-complement integer: numbers are `Int`, and the result
  of `+`, `-`, `*` and of a negation is reduced by `wrap64`, so an overflow there
  wraps around.  Division and remainder have no value in C when the divisor is
  zero or when the least `long` is divided by `-1` (a trap on x86-64): these are
  the outcome `Res.undefined`, as is a read outside the cells of a list or of a
  field the value's type does not carry.
* A C function that can loop or recurse without bound takes a fuel argument and
  answers `Res.timeout` when the fuel is used up.
* `lval*` values are owned trees, so they are ordinary Lean values; `lval_del`
  and printing have no counterpart.
* An `lenv` is its binding arrays `syms`/`vals` (one list of pairs) and its
  `par` pointer.  The environment in which evaluation runs is modelled together
  with its whole parent chain (`Lenv.root` has `par == NULL`), and every function
  that may write to a scope of the chain returns the updated chain.
* When the body of a lambda has been evaluated, the caller's environment is read back as the
  parent of `f->env` (`lval_call_body`); evaluation never changes the length of the chain
  (`lval_eval_depth`), so that parent exists.
* The environment owned by a lambda has `par == NULL` from `lenv_new` until
  `lval_call` is about to evaluate the body, and the lambda is not reachable
  from the program after that point; a lambda value therefore stores only the
  bindings of its environment.
-/

namespace CLispy

/-! ## Machine integers -/

/-- Reduction of an integer to the range of a 64-bit `long`. -/
def wrap64 (z : Int) : Int :=
  (z + 9223372036854775808) % 18446744073709551616 - 9223372036854775808

/-- Outcome of running a piece of C code. -/
inductive Res (α : Type) where
  | ok (a : α)
  | undefined
  | timeout

/-- The loop of `lpow`, one iteration per unit of fuel. -/
def lpow_loop : Nat → Int → Int → Int → Res Int
  | 0, _, _, _ => .timeout
  | fuel + 1, r, x, y =>
    if y = 0 then .ok r
    else
      let r1 := if y % 2 ≠ 0 then wrap64 (r * x) else r
      lpow_loop fuel r1 (wrap64 (x * x)) (y / 2)

/-- Embedding of `lpow`.  A `long` exponent has 64 bits, so a run that ends does so within 64
tests of the loop condition. -/
def lpow (x y : Int) : Res Int :=
  lpow_loop 64 1 x y

/-! ## Values and environments -/

/-- The native operations a function value can point to. -/
inductive Builtin where
  | cons | list | head | tail | eval | join | init
  | def_ | put | lambda | if_
  | add | sub | mul | div | mod | pow
  | eqv | lt | gt | eq | neq | geq | leq
  | load
  deriving DecidableEq, Repr

/-- Embedding of `struct lval`: one constructor per `Val_Type`, `LVAL_FUN` split on `builtin`. -/
inductive Lval where
  | num (x : Int)
  | err (m : String)
  | builtin (b : Builtin)
  | lambda (env : List (String × Lval)) (formals : Lval) (body : Lval)
  | bool (b : Bool)
  | str (s : String)
  | sym (s : String)
  | sexpr (cell : List Lval)
  | qexpr (cell : List Lval)

/-- Embedding of `struct lenv`: the bindings and the parent chain. -/
inductive Lenv where
  | root (binds : List (String × Lval))
  | child (binds : List (String × Lval)) (par : Lenv)

/-- The bindings of the scope itself (`syms`, `vals`). -/
def Lenv.binds : Lenv → List (String × Lval)
  | .root b => b
  | .child b _ => b

/-- The field `par`. -/
def Lenv.par : Lenv → Option Lenv
  | .root _ => none
  | .child _ p => some p

/-- The scopes of the chain, innermost first. -/
def Lenv.scopes : Lenv → List (List (String × Lval))
  | .root b => [b]
  | .child b p => b :: p.scopes

/-- Embedding of `lenv_new`. -/
def lenv_new : Lenv := .root []

/-- Embedding of `lval_err` for an already formatted message: at most 510 characters are kept. -/
def lval_err (m : String) : Lval :=
  .err (String.mk (m.data.take 510))

/-- Embedding of `lval_lambda`. -/
def lval_lambda (formals body : Lval) : Lval :=
  .lambda [] formals body

mutual
/-- Embedding of `lval_copy`. -/
def lval_copy : Lval → Lval
  | .num x => .num x
  | .err m => .err m
  | .builtin b => .builtin b
  | .lambda env formals body => .lambda (copy_binds env) (lval_copy formals) (lval_copy body)
  | .bool b => .bool b
  | .str s => .str s
  | .sym s => .sym s
  | .sexpr cell => .sexpr (copy_cells cell)
  | .qexpr cell => .qexpr (copy_cells cell)
/-- The cell loop of `lval_copy`. -/
def copy_cells : List Lval → List Lval
  | [] => []
  | v :: vs => lval_copy v :: copy_cells vs
/-- The binding loop of `lenv_copy`. -/
def copy_binds : List (String × Lval) → List (String × Lval)
  | [] => []
  | (s, v) :: rest => (s, lval_copy v) :: copy_binds rest
end

/-- Embedding of `lenv_copy`: same parent, copied bindings. -/
def lenv_copy : Lenv → Lenv
  | .root b => .root (copy_binds b)
  | .child b p => .child (copy_binds b) p

/-- The scan of `lenv_get` over one scope: the value at the first index whose symbol is `k`. -/
def scope_find : List (String × Lval) → String → Option Lval
  | [], _ => none
  | (s, v) :: rest, k => if s = k then some v else scope_find rest k

/-- Embedding of `lenv_get`; `k` is the name `k->sym`. -/
def lenv_get : Lenv → String → Lval
  | .root b, k =>
    match scope_find b k with
    | some v => lval_copy v
    | none => lval_err ("unbound symbol '" ++ k ++ "'!")
  | .child b p, k =>
    match scope_find b k with
    | some v => lval_copy v
    | none => lenv_get p k

/-- The body of `lenv_put` on the arrays of one scope: replace at the first match, else append. -/
def scope_put : List (String × Lval) → String → Lval → List (String × Lval)
  | [], k, v => [(k, lval_copy v)]
  | (s, w) :: rest, k, v =>
    if s = k then (s, lval_copy v) :: rest else (s, w) :: scope_put rest k v

/-- Embedding of `lenv_put`; `k` is the name `k->sym`. -/
def lenv_put : Lenv → String → Lval → Lenv
  | .root b, k, v => .root (scope_put b k v)
  | .child b p, k, v => .child (scope_put b k v) p

/-- Embedding of `lenv_def`: walk to the scope without parent and put there. -/
def lenv_def : Lenv → String → Lval → Lenv
  | .root b, k, v => lenv_put (.root b) k v
  | .child b p, k, v => .child b (lenv_def p k v)

/-! ## Primitive operations -/

/-- The result type of an evaluation step: a value and the updated environment chain. -/
abbrev Step := Res (Lval × Lenv)

/-- The evaluator handed to the primitives that call back into `lval_eval`. -/
abbrev Evaluator := Lenv → Lval → Step

/-- The number carried by a value of type `LVAL_NUM`. -/
def Lval.num? : Lval → Option Int
  | .num x => some x
  | _ => none

/-- The name carried by a value of type `LVAL_SYM`. -/
def Lval.sym? : Lval → Option String
  | .sym s => some s
  | _ => none

/-- Test `type == LVAL_ERR`. -/
def Lval.isErr : Lval → Bool
  | .err _ => true
  | _ => false

/-- Test `type == LVAL_FUN`. -/
def Lval.isFun : Lval → Bool
  | .builtin _ => true
  | .lambda _ _ _ => true
  | _ => false

/-- Test `type == LVAL_QEXPR`. -/
def Lval.isQexpr : Lval → Bool
  | .qexpr _ => true
  | _ => false

/-- The fields `count`/`cell`, which only list values carry. -/
def Lval.cells? : Lval → Option (List Lval)
  | .sexpr c => some c
  | .qexpr c => some c
  | _ => none

/-- A list value with its cells replaced and its type tag kept. -/
def Lval.setCells : Lval → List Lval → Lval
  | .sexpr _, c => .sexpr c
  | .qexpr _, c => .qexpr c
  | v, _ => v

/-- The numbers of an operand list, or `none` when some cell is not a number. -/
def all_nums : List Lval → Option (List Int)
  | [] => some []
  | v :: vs =>
    match v.num?, all_nums vs with
    | some x, some xs => some (x :: xs)
    | _, _ => none

/-- The names of a list of symbols, or `none` when some cell is not a symbol. -/
def all_syms : List Lval → Option (List String)
  | [] => some []
  | v :: vs =>
    match v.sym?, all_syms vs with
    | some x, some xs => some (x :: xs)
    | _, _ => none

/-- The `while (a->count != 0)` loop of `builtin_op` on the accumulator `x`.  The quotient and
the remainder of the least `long` by `-1` are not representable: `x->num /= y->num` and
`x->num %= y->num` have no defined result there, as for a zero divisor of `%`. -/
def builtin_op_loop (op : String) : Int → List Int → Res Lval
  | x, [] => .ok (.num x)
  | x, y :: ys =>
    if op = "+" then builtin_op_loop op (wrap64 (x + y)) ys
    else if op = "-" then builtin_op_loop op (wrap64 (x - y)) ys
    else if op = "*" then builtin_op_loop op (wrap64 (x * y)) ys
    else if op = "/" then
      if y = 0 then .ok (lval_err "Can't divide by 0")
      else if x = -9223372036854775808 ∧ y = -1 then .undefined
      else builtin_op_loop op (wrap64 (Int.tdiv x y)) ys
    else if op = "%" then
      if y = 0 then .undefined
      else if x = -9223372036854775808 ∧ y = -1 then .undefined
      else builtin_op_loop op (wrap64 (Int.tmod x y)) ys
    else if op = "^" then
      match lpow x y with
      | .ok r => builtin_op_loop op r ys
      | .undefined => .undefined
      | .timeout => .timeout
    else builtin_op_loop op x ys

/-- Embedding of `builtin_op`. -/
def builtin_op (e : Lenv) (a : List Lval) (op : String) : Step :=
  match all_nums a with
  | none => .ok (lval_err "Cannot operate on a non-number!", e)
  | some [] => .undefined
  | some (x :: ys) =>
    let x1 := if op = "-" ∧ ys = [] then wrap64 (-x) else x
    match builtin_op_loop op x1 ys with
    | .ok r => .ok (r, e)
    | .undefined => .undefined
    | .timeout => .timeout

/-- The binding loop of `builtin_var`. -/
def builtin_var_loop (func : String) : Lenv → List String → List Lval → Lenv
  | e, s :: ss, v :: vs =>
    let e1 := if func = "def" then lenv_def e s v else e
    let e2 := if func = "=" then lenv_put e1 s v else e1
    builtin_var_loop func e2 ss vs
  | e, _, _ => e

/-- Embedding of `builtin_var`. -/
def builtin_var (e : Lenv) (a : List Lval) (func : String) : Step :=
  match a with
  | [] => .undefined
  | .qexpr syms :: vals =>
    match all_syms syms with
    | none => .ok (lval_err "Function 'def' cannot define non-symbols!", e)
    | some names =>
      if syms.length = vals.length then
        .ok (.sexpr [], builtin_var_loop func e names vals)
      else
        .ok (lval_err "Function 'def' cannot define incorrect number of values to symbols.", e)
  | _ :: _ => .ok (lval_err "Function 'def' passed incorrect type!", e)

/-- Embedding of `builtin_head`. -/
def builtin_head (e : Lenv) (a : List Lval) : Step :=
  match a with
  | [.qexpr []] => .ok (lval_err "Function 'head' passed \x7b\x7d!", e)
  | [.qexpr (v :: _)] => .ok (.qexpr [v], e)
  | [_] => .ok (lval_err "Function 'head' passed incorrect type!", e)
  | _ => .ok (lval_err "Function 'head' passed too many arguments!", e)

/-- Embedding of `builtin_tail`. -/
def builtin_tail (e : Lenv) (a : List Lval) : Step :=
  match a with
  | [.qexpr []] => .ok (lval_err "Function 'tail' passed \x7b\x7d!", e)
  | [.qexpr (_ :: vs)] => .ok (.qexpr vs, e)
  | [_] => .ok (lval_err "Function 'tail' passed incorrect type!", e)
  | _ => .ok (lval_err "Function 'tail' passed too many arguments!", e)

/-- Embedding of `builtin_init`. -/
def builtin_init (e : Lenv) (a : List Lval) : Step :=
  match a with
  | [.qexpr []] => .ok (lval_err "Function 'init' passed \x7b\x7d!", e)
  | [.qexpr (v :: vs)] => .ok (.qexpr (v :: vs).dropLast, e)
  | [_] => .ok (lval_err "Function 'init' passed incorrect type!", e)
  | _ => .ok (lval_err "Function 'init' passed too many arguments!", e)

/-- Embedding of `builtin_list`. -/
def builtin_list (e : Lenv) (a : List Lval) : Step :=
  .ok (.qexpr a, e)

/-- Embedding of `builtin_eval`. -/
def builtin_eval (ev : Evaluator) (e : Lenv) (a : List Lval) : Step :=
  match a with
  | [.qexpr c] => ev e (.sexpr c)
  | [_] => .ok (lval_err "Function 'eval' passed incorrect type!", e)
  | _ => .ok (lval_err "Function 'eval' passed too many arguments!", e)

/-- The cells of the operands of `join`, in order, or `none` when one is not a Q-expression. -/
def join_cells : List Lval → Option (List Lval)
  | [] => some []
  | .qexpr c :: vs =>
    match join_cells vs with
    | some cs => some (c ++ cs)
    | none => none
  | _ :: _ => none

/-- Embedding of `builtin_join` (with `lval_join`). -/
def builtin_join (e : Lenv) (a : List Lval) : Step :=
  match join_cells a with
  | none => .ok (lval_err "Function 'join' passed incorrect type!", e)
  | some cs =>
    match a with
    | [] => .undefined
    | _ :: _ => .ok (.qexpr cs, e)

/-- Embedding of `builtin_cons`. -/
def builtin_cons (e : Lenv) (a : List Lval) : Step :=
  match a with
  | [car, .qexpr cdr] => .ok (.qexpr (car :: cdr), e)
  | [_, _] => .ok (lval_err "Function 'cons' passed incorrect type!", e)
  | _ => .ok (lval_err "Function 'cons' should be passed two arguments!", e)

/-- Embedding of `builtin_lambda`. -/
def builtin_lambda (e : Lenv) (a : List Lval) : Step :=
  match a with
  | [.qexpr fs, .qexpr body] =>
    match all_syms fs with
    | none => .ok (lval_err "Cannot define a non-symbol", e)
    | some _ => .ok (lval_lambda (.qexpr fs) (.qexpr body), e)
  | [.qexpr _, _] => .ok (lval_err "lambda expects a body", e)
  | [_, _] => .ok (lval_err "Formals", e)
  | _ => .ok (lval_err "'lambda' expects formals and a body.", e)

/-- Embedding of `builtin_comp`. -/
def builtin_comp (e : Lenv) (a : List Lval) (comp : String) : Step :=
  match a with
  | [vx, vy] =>
    match vx.num?, vy.num? with
    | some x, some y =>
      let r0 := false
      let r1 := if comp = "<" then decide (x < y) else r0
      let r2 := if comp = ">" then decide (x > y) else r1
      let r3 := if comp = "=" then decide (x = y) else r2
      let r4 := if comp = ">=" then decide (x ≥ y) else r3
      let r5 := if comp = "<=" then decide (x ≤ y) else r4
      let r6 := if comp = "!=" then decide (x ≠ y) else r5
      .ok (.bool r6, e)
    | _, _ => .ok (lval_err "Comparison cannot operate on a non-number!", e)
  | _ => .ok (lval_err "Comparison expected 2 numbers.", e)

mutual
/-- Embedding of `lval_eqv`. -/
def lval_eqv : Lval → Lval → Bool
  | .num x, .num y => decide (x = y)
  | .bool x, .bool y => decide (x = y)
  | .err x, .err y => decide (x = y)
  | .sym x, .sym y => decide (x = y)
  | .str x, .str y => decide (x = y)
  | .builtin x, .builtin y => decide (x = y)
  | .lambda _ f1 b1, .lambda _ f2 b2 => lval_eqv f1 f2 && lval_eqv b1 b2
  | .qexpr c1, .qexpr c2 => eqv_cells c1 c2
  | .sexpr c1, .sexpr c2 => eqv_cells c1 c2
  | _, _ => false
/-- The cell loop of `lval_eqv`: equal counts and pairwise equivalent cells. -/
def eqv_cells : List Lval → List Lval → Bool
  | [], [] => true
  | x :: xs, y :: ys => lval_eqv x y && eqv_cells xs ys
  | _, _ => false
end

/-- Embedding of `builtin_eqv`. -/
def builtin_eqv (e : Lenv) (a : List Lval) : Step :=
  match a with
  | [] => .ok (lval_err "'eqv?' expects 2 arguments", e)
  | [_] => .undefined
  | x :: y :: _ => .ok (.bool (lval_eqv x y), e)

/-- Embedding of `builtin_if`. -/
def builtin_if (ev : Evaluator) (e : Lenv) (a : List Lval) : Step :=
  match a with
  | [.bool c, .qexpr t, .qexpr f] =>
    if c then ev e (.sexpr t) else ev e (.sexpr f)
  | [.bool _, .qexpr _, _] => .ok (lval_err "'if' expected qexpr", e)
  | [.bool _, _, _] => .ok (lval_err "'if' expected qexpr", e)
  | [_, _, _] => .ok (lval_err "First argument to 'if' should be a bool", e)
  | _ => .ok (lval_err
      ("Arity mismatch, 'if' expects 3 values but got " ++ toString a.length), e)

/-- The form loop of `builtin_load`: every form is evaluated, an Error is printed and dropped. -/
def builtin_load_loop (ev : Evaluator) : Lenv → List Lval → Res Lenv
  | e, [] => .ok e
  | e, x :: xs =>
    match ev e x with
    | .ok (_, e1) => builtin_load_loop ev e1 xs
    | .undefined => .undefined
    | .timeout => .timeout

/-- Embedding of `builtin_load`.  The parser is outside the program: `parse` gives, for a file
name, the top-level forms read from it or the message of the parse error. -/
def builtin_load (parse : String → Except String (List Lval)) (ev : Evaluator)
    (e : Lenv) (a : List Lval) : Step :=
  match a with
  | [.str name] =>
    match parse name with
    | .ok forms =>
      match builtin_load_loop ev e forms with
      | .ok e1 => .ok (.sexpr [], e1)
      | .undefined => .undefined
      | .timeout => .timeout
    | .error msg => .ok (lval_err ("Could not load Libarry " ++ msg), e)
  | [_] => .ok (lval_err "'load' expects a string.", e)
  | _ => .ok (lval_err "'load' expects 1 argument.", e)

/-! ## Function application and evaluation -/

/-- Where the argument-binding code of `lval_call` leaves the lambda. -/
inductive Bound where
  | fail (err : Lval)
  | undefined
  | bound (fenv : Lenv) (formals : List Lval)

/-- The `while (a->count)` loop of `lval_call`: `fenv` is `f->env`, `formals` the cells of
`f->formals` still to bind, `a` the arguments left. -/
def lval_call_loop (given total : Nat) : Lenv → List Lval → List Lval → Bound
  | fenv, formals, [] => .bound fenv formals
  | fenv, formals, val :: rest =>
    match formals with
    | [] => .fail (lval_err ("Function passed too many arguments. Got " ++ toString given
              ++ ", Expected " ++ toString total ++ "."))
    | .sym s :: fs =>
      if s = "&" then
        match fs with
        | [.sym n] => .bound (lenv_put fenv n (.qexpr (val :: rest))) []
        | [_] => .undefined
        | _ => .fail (lval_err "Function format invalid")
      else lval_call_loop given total (lenv_put fenv s val) fs rest
    | _ :: _ => .undefined

/-- The code of `lval_call` after the loop that binds a remaining `&` to the empty list. -/
def lval_call_rest (fenv : Lenv) (formals : List Lval) : Bound :=
  match formals with
  | [] => .bound fenv []
  | .sym s :: fs =>
    if s = "&" then
      match fs with
      | [.sym n] => .bound (lenv_put fenv n (.qexpr [])) []
      | [_] => .undefined
      | _ => .fail (lval_err
          "Function format invalid. Symbol '&' not followed by single symbol.")
    else .bound fenv formals
  | _ :: _ => .undefined

/-- The evaluation of the body at the end of `lval_call`: `fenv` is `f->env` after
`f->env->par = e`; the value is returned and the parent of `fenv` is the caller's environment
as the body left it. -/
def lval_call_body (ev : Evaluator) (fenv : Lenv) (body : Lval) : Step :=
  match builtin_eval ev fenv [lval_copy body] with
  | .ok (r, fenv1) =>
    match fenv1.par with
    | some e1 => .ok (r, e1)
    | none => .undefined
  | .undefined => .undefined
  | .timeout => .timeout

/-- The last step of `lval_call`: with no formal left the body is evaluated in `f->env`, whose
parent is made the calling environment `e`; otherwise a copy of the lambda is returned. -/
def lval_call_finish (ev : Evaluator) (e : Lenv) (fenv : Lenv) (formals : Lval)
    (left : List Lval) (body : Lval) : Step :=
  match left with
  | [] => lval_call_body ev (.child fenv.binds e) body
  | _ :: _ => .ok (lval_copy (.lambda fenv.binds (formals.setCells left) body), e)

/-- Embedding of `lval_call` for a lambda with environment bindings `env`. -/
def lval_call_lambda (ev : Evaluator) (e : Lenv) (env : List (String × Lval))
    (formals body : Lval) (a : List Lval) : Step :=
  match formals.cells? with
  | none => .undefined
  | some fs =>
    match lval_call_loop a.length fs.length (.root env) fs a with
    | .fail err => .ok (err, e)
    | .undefined => .undefined
    | .bound fenv left =>
      match lval_call_rest fenv left with
      | .fail err => .ok (err, e)
      | .undefined => .undefined
      | .bound fenv1 left1 => lval_call_finish ev e fenv1 formals left1 body

/-- The call `f->builtin(e, a)` for each native operation. -/
def call_builtin (parse : String → Except String (List Lval)) (ev : Evaluator)
    (b : Builtin) (e : Lenv) (a : List Lval) : Step :=
  match b with
  | .cons => builtin_cons e a
  | .list => builtin_list e a
  | .head => builtin_head e a
  | .tail => builtin_tail e a
  | .eval => builtin_eval ev e a
  | .join => builtin_join e a
  | .init => builtin_init e a
  | .def_ => builtin_var e a "def"
  | .put => builtin_var e a "="
  | .lambda => builtin_lambda e a
  | .if_ => builtin_if ev e a
  | .add => builtin_op e a "+"
  | .sub => builtin_op e a "-"
  | .mul => builtin_op e a "*"
  | .div => builtin_op e a "/"
  | .mod => builtin_op e a "%"
  | .pow => builtin_op e a "^"
  | .eqv => builtin_eqv e a
  | .lt => builtin_comp e a "<"
  | .gt => builtin_comp e a ">"
  | .eq => builtin_comp e a "="
  | .neq => builtin_comp e a "!="
  | .geq => builtin_comp e a ">="
  | .leq => builtin_comp e a "<="
  | .load => builtin_load parse ev e a

/-- Embedding of `lval_call`. -/
def lval_call (parse : String → Except String (List Lval)) (ev : Evaluator)
    (e : Lenv) (f : Lval) (a : List Lval) : Step :=
  match f with
  | .builtin b => call_builtin parse ev b e a
  | .lambda env formals body => lval_call_lambda ev e env formals body a
  | _ => .undefined

/-- The first loop of `lval_eval_sexpr`: the cells are evaluated from left to right. -/
def eval_cells (ev : Evaluator) : Lenv → List Lval → Res (List Lval × Lenv)
  | e, [] => .ok ([], e)
  | e, c :: cs =>
    match ev e c with
    | .ok (c1, e1) =>
      match eval_cells ev e1 cs with
      | .ok (cs1, e2) => .ok (c1 :: cs1, e2)
      | .undefined => .undefined
      | .timeout => .timeout
    | .undefined => .undefined
    | .timeout => .timeout

/-- Embedding of `lval_eval_sexpr` on the cells of `v`. -/
def lval_eval_sexpr (parse : String → Except String (List Lval)) (ev : Evaluator)
    (e : Lenv) (cell : List Lval) : Step :=
  match eval_cells ev e cell with
  | .ok (cs, e1) =>
    match cs.find? Lval.isErr with
    | some err => .ok (err, e1)
    | none =>
      match cs with
      | [] => .ok (.sexpr [], e1)
      | [x] => .ok (x, e1)
      | f :: args =>
        if f.isFun then lval_call parse ev e1 f args
        else .ok (lval_err "first element is not a function!", e1)
  | .undefined => .undefined
  | .timeout => .timeout

/-- Embedding of `lval_eval`; the fuel bounds the nesting of calls of `lval_eval`. -/
def lval_eval (parse : String → Except String (List Lval)) : Nat → Lenv → Lval → Step
  | 0, _, _ => .timeout
  | fuel + 1, e, v =>
    match v with
    | .sym s => .ok (lenv_get e s, e)
    | .sexpr cell => lval_eval_sexpr parse (lval_eval parse fuel) e cell
    | _ => .ok (v, e)

/-- Embedding of `lenv_add_builtin`. -/
def lenv_add_builtin (e : Lenv) (name : String) (func : Builtin) : Lenv :=
  lenv_put e name (.builtin func)

/-- The registrations of `lenv_add_builtins`, in source order. -/
def builtin_table : List (String × Builtin) :=
  [("cons", .cons), ("list", .list), ("head", .head), ("tail", .tail), ("eval", .eval),
   ("join", .join), ("init", .init),
   ("def", .def_), ("=", .put), ("\\", .lambda), ("if", .if_),
   ("+", .add), ("-", .sub), ("*", .mul), ("/", .div), ("%", .mod), ("^", .pow),
   ("eqv?", .eqv), ("<", .lt), (">", .gt), ("=", .eq), ("!=", .neq), (">=", .geq),
   ("<=", .leq),
   ("load", .load)]

/-- Embedding of `lenv_add_builtins`. -/
def lenv_add_builtins (e : Lenv) : Lenv :=
  builtin_table.foldl (fun acc nf => lenv_add_builtin acc nf.1 nf.2) e

/-- The root environment of `main`: `lenv_new` followed by `lenv_add_builtins`. -/
def root_env : Lenv :=
  lenv_add_builtins lenv_new

/-- The bindings of `f->env` once the formals named `xs` have been paired, in order, with the
arguments `vs`: one `lenv_put` per pair. -/
def bound_scope (env : List (String × Lval)) (xs : List String) (vs : List Lval) :
    List (String × Lval) :=
  (xs.zip vs).foldl (fun b p => scope_put b p.1 p.2) env

/-- A scope binds the name `k`: some index of `syms` holds `k`. -/
def scope_binds (b : List (String × Lval)) (k : String) : Prop :=
  k ∈ b.map Prod.fst

instance (b : List (String × Lval)) (k : String) : Decidable (scope_binds b k) :=
  inferInstanceAs (Decidable (k ∈ b.map Prod.fst))

/-- The bindings of the scope without parent at the end of the chain. -/
def Lenv.root_scope : Lenv → List (String × Lval)
  | .root b => b
  | .child _ p => p.root_scope

/-- The scopes of the chain that have a parent, innermost first. -/
def Lenv.inner_scopes : Lenv → List (List (String × Lval))
  | .root _ => []
  | .child b p => b :: p.inner_scopes

/-- The number of parents above a scope. -/
def Lenv.depth : Lenv → Nat
  | .root _ => 0
  | .child _ p => p.depth + 1

/-- An evaluator returns a chain as long as the one it was given. -/
def keeps_depth (ev : Evaluator) : Prop :=
  ∀ e v r e1, ev e v = .ok (r, e1) → e1.depth = e.depth

/-- A value that still awaits evaluation: a symbol or a non-empty S-expression. -/
def Lval.pending : Lval → Bool
  | .sym _ => true
  | .sexpr (_ :: _) => true
  | _ => false

mutual
/-- Every lambda inside the value, at any depth, has an environment whose bound values are not
pending and satisfy the same condition in turn. -/
def closures_settled : Lval → Bool
  | .num _ => true
  | .err _ => true
  | .builtin _ => true
  | .lambda env formals body =>
    binds_settled env && closures_settled formals && closures_settled body
  | .bool _ => true
  | .str _ => true
  | .sym _ => true
  | .sexpr cell => cells_settled cell
  | .qexpr cell => cells_settled cell
/-- The condition `closures_settled` on every cell of a list. -/
def cells_settled : List Lval → Bool
  | [] => true
  | v :: vs => closures_settled v && cells_settled vs
/-- No value bound in the scope is pending, and each satisfies `closures_settled`. -/
def binds_settled : List (String × Lval) → Bool
  | [] => true
  | (_, v) :: rest => !v.pending && closures_settled v && binds_settled rest
end

/-- No value stored in a scope of the chain, or in the environment of a lambda stored there, is
pending. -/
def env_settled (e : Lenv) : Prop :=
  ∀ s ∈ e.scopes, binds_settled s = true

/-- Every argument is a settled value that is not pending. -/
def args_settled (a : List Lval) : Prop :=
  ∀ c ∈ a, c.pending = false ∧ closures_settled c = true

/-- A step that returns gives a value that is not pending and keeps the environment settled. -/
def step_settled (s : Step) : Prop :=
  ∀ r e1, s = .ok (r, e1) → r.pending = false ∧ closures_settled r = true ∧ env_settled e1

/-- The evaluator maps a settled environment and expression to a settled step. -/
def keeps_settled (ev : Evaluator) : Prop :=
  ∀ e v, env_settled e → closures_settled v = true → step_settled (ev e v)

/-- The forms the parser reads carry no lambda with a pending value in its environment (the
reader builds no function value at all). -/
def parse_settled (parse : String → Except String (List Lval)) : Prop :=
  ∀ name forms, parse name = .ok forms → cells_settled forms = true

/-- The outcome of the argument-binding code of `lval_call` is settled: an Error, or a settled
environment of the lambda with the formals still to bind. -/
def bound_settled : Bound → Prop
  | .fail err => err.pending = false ∧ closures_settled err = true
  | .undefined => True
  | .bound fenv left => env_settled fenv ∧ cells_settled left = true

/-- The dispatch `f->builtin(e, a)` of `lval_call`, as a parameter: given the evaluator in
force, the native operation, the environment and the argument list, the outcome. -/
abbrev Dispatch := Evaluator → Builtin → Lenv → List Lval → Step

/-- The function `lval_call` with the dispatch of native operations taken as a parameter. -/
def lval_call_with (cb : Dispatch) (ev : Evaluator) (e : Lenv) (f : Lval) (a : List Lval) :
    Step :=
  match f with
  | .builtin b => cb ev b e a
  | .lambda env formals body => lval_call_lambda ev e env formals body a
  | _ => .undefined

/-- The function `lval_eval_sexpr` with the dispatch of native operations taken as a
parameter. -/
def lval_eval_sexpr_with (cb : Dispatch) (ev : Evaluator) (e : Lenv) (cell : List Lval) :
    Step :=
  match eval_cells ev e cell with
  | .ok (cs, e1) =>
    match cs.find? Lval.isErr with
    | some err => .ok (err, e1)
    | none =>
      match cs with
      | [] => .ok (.sexpr [], e1)
      | [x] => .ok (x, e1)
      | f :: args =>
        if f.isFun then lval_call_with cb ev e1 f args
        else .ok (lval_err "first element is not a function!", e1)
  | .undefined => .undefined
  | .timeout => .timeout

/-- The function `lval_eval` with the dispatch of native operations taken as a parameter. -/
def lval_eval_with (cb : Dispatch) : Nat → Lenv → Lval → Step
  | 0, _, _ => .timeout
  | fuel + 1, e, v =>
    match v with
    | .sym s => .ok (lenv_get e s, e)
    | .sexpr cell => lval_eval_sexpr_with cb (lval_eval_with cb fuel) e cell
    | _ => .ok (v, e)

/-- The dispatch that runs the native operation on a non-empty argument list and answers `d`,
whatever that is, on an empty one. -/
def call_builtin_guarded (parse : String → Except String (List Lval)) (d : Step) : Dispatch :=
  fun ev b e a =>
    match a with
    | [] => d
    | _ :: _ => call_builtin parse ev b e a

mutual
theorem lval_copy_eq : ∀ v : Lval, lval_copy v = v
  | .num _ => rfl
  | .err _ => rfl
  | .builtin _ => rfl
  | .lambda env formals body => by
    simp [lval_copy, copy_binds_eq env, lval_copy_eq formals, lval_copy_eq body]
  | .bool _ => rfl
  | .str _ => rfl
  | .sym _ => rfl
  | .sexpr cell => by simp [lval_copy, copy_cells_eq cell]
  | .qexpr cell => by simp [lval_copy, copy_cells_eq cell]
theorem copy_cells_eq : ∀ vs : List Lval, copy_cells vs = vs
  | [] => rfl
  | v :: vs => by simp [copy_cells, lval_copy_eq v, copy_cells_eq vs]
theorem copy_binds_eq : ∀ bs : List (String × Lval), copy_binds bs = bs
  | [] => rfl
  | (s, v) :: rest => by simp [copy_binds, lval_copy_eq v, copy_binds_eq rest]
end

theorem scope_find_put_same (b : List (String × Lval)) (k : String) (v : Lval) :
    scope_find (scope_put b k v) k = some v := by
  induction b with
  | nil => simp [scope_put, scope_find, lval_copy_eq]
  | cons hd tl ih =>
    obtain ⟨s, w⟩ := hd
    by_cases h : s = k
    · simp [scope_put, scope_find, h, lval_copy_eq]
    · simp [scope_put, scope_find, h, ih]

theorem scope_find_put_other (b : List (String × Lval)) (k j : String) (v : Lval)
    (hne : j ≠ k) : scope_find (scope_put b k v) j = scope_find b j := by
  induction b with
  | nil =>
    have : ¬ k = j := fun h => hne h.symm
    simp [scope_put, scope_find, this]
  | cons hd tl ih =>
    obtain ⟨s, w⟩ := hd
    by_cases h : s = k
    · subst h
      have : ¬ s = j := fun h => hne h.symm
      simp [scope_put, scope_find, this]
    · by_cases hj : s = j
      · subst hj
        simp [scope_put, scope_find, h]
      · simp [scope_put, scope_find, h, hj, ih]

theorem all_nums_map_num (xs : List Int) : all_nums (xs.map Lval.num) = some xs := by
  induction xs with
  | nil => rfl
  | cons x xs ih => simp [all_nums, Lval.num?, ih]

theorem all_syms_map_sym (xs : List String) : all_syms (xs.map Lval.sym) = some xs := by
  induction xs with
  | nil => rfl
  | cons x xs ih => simp [all_syms, Lval.sym?, ih]

theorem scope_find_eq_none (b : List (String × Lval)) (k : String) (h : ¬ scope_binds b k) :
    scope_find b k = none := by
  induction b with
  | nil => rfl
  | cons hd tl ih =>
    obtain ⟨s, w⟩ := hd
    have hs : ¬ s = k := fun hsk => h (by simp [scope_binds, hsk])
    have ht : ¬ scope_binds tl k := fun hm => h (by
      simp only [scope_binds, List.map_cons, List.mem_cons] at hm ⊢
      exact Or.inr hm)
    simp [scope_find, hs, ih ht]

theorem scope_binds_of_find (b : List (String × Lval)) (k : String) (v : Lval)
    (h : scope_find b k = some v) : scope_binds b k ∧ (k, v) ∈ b := by
  induction b with
  | nil => simp [scope_find] at h
  | cons hd tl ih =>
    obtain ⟨s, w⟩ := hd
    by_cases hs : s = k
    · subst hs
      simp [scope_find] at h
      subst h
      simp [scope_binds]
    · simp [scope_find, hs] at h
      have := ih h
      refine ⟨?_, List.mem_cons_of_mem _ this.2⟩
      have h1 := this.1
      simp only [scope_binds, List.map_cons, List.mem_cons] at h1 ⊢
      exact Or.inr h1

theorem scope_find_first (l1 l2 : List (String × Lval)) (k : String) (v : Lval)
    (h : ¬ scope_binds l1 k) : scope_find (l1 ++ (k, v) :: l2) k = some v := by
  induction l1 with
  | nil => simp [scope_find]
  | cons hd tl ih =>
    obtain ⟨s, w⟩ := hd
    have hs : ¬ s = k := fun hsk => h (by simp [scope_binds, hsk])
    have ht : ¬ scope_binds tl k := fun hm => h (by
      simp only [scope_binds, List.map_cons, List.mem_cons] at hm ⊢
      exact Or.inr hm)
    simp [scope_find, hs, ih ht]

/-! ## Evaluation keeps the shape of the environment chain

`lval_call_body` reads the caller's environment back as the parent of `f->env`.  The lemmas of
this section show that `lval_eval` never changes the length of the chain, so that parent is
always there (`lval_call_body_defined`). -/

theorem lenv_put_depth (e : Lenv) (k : String) (v : Lval) : (lenv_put e k v).depth = e.depth := by
  cases e <;> rfl

theorem lenv_def_depth (k : String) (v : Lval) : ∀ e : Lenv, (lenv_def e k v).depth = e.depth := by
  intro e
  induction e with
  | root b => rfl
  | child b p ih => simp [lenv_def, Lenv.depth, ih]

theorem builtin_var_loop_depth (func : String) (ss : List String) :
    ∀ (e : Lenv) (vs : List Lval), (builtin_var_loop func e ss vs).depth = e.depth := by
  induction ss with
  | nil => intro e vs; simp [builtin_var_loop]
  | cons s ss ih =>
    intro e vs
    cases vs with
    | nil => simp [builtin_var_loop]
    | cons v vs =>
      simp only [builtin_var_loop]
      rw [ih]
      split <;> split <;> simp [lenv_put_depth, lenv_def_depth]

theorem builtin_op_depth (e : Lenv) (a : List Lval) (op : String) (r : Lval) (e1 : Lenv)
    (h : builtin_op e a op = .ok (r, e1)) : e1.depth = e.depth := by
  unfold builtin_op at h
  split at h
  · simp at h; rw [← h.2]
  · simp at h
  · simp only [] at h
    generalize builtin_op_loop op _ _ = res at h
    cases res <;> simp at h
    rw [← h.2]

theorem builtin_var_depth (e : Lenv) (a : List Lval) (func : String) (r : Lval) (e1 : Lenv)
    (h : builtin_var e a func = .ok (r, e1)) : e1.depth = e.depth := by
  unfold builtin_var at h
  repeat' split at h
  all_goals simp at h
  all_goals rw [← h.2]
  exact builtin_var_loop_depth _ _ _ _

theorem builtin_head_depth (e : Lenv) (a : List Lval) (r : Lval) (e1 : Lenv)
    (h : builtin_head e a = .ok (r, e1)) : e1.depth = e.depth := by
  unfold builtin_head at h
  repeat' split at h
  all_goals simp at h
  all_goals rw [← h.2]

theorem builtin_tail_depth (e : Lenv) (a : List Lval) (r : Lval) (e1 : Lenv)
    (h : builtin_tail e a = .ok (r, e1)) : e1.depth = e.depth := by
  unfold builtin_tail at h
  repeat' split at h
  all_goals simp at h
  all_goals rw [← h.2]

theorem builtin_init_depth (e : Lenv) (a : List Lval) (r : Lval) (e1 : Lenv)
    (h : builtin_init e a = .ok (r, e1)) : e1.depth = e.depth := by
  unfold builtin_init at h
  repeat' split at h
  all_goals simp at h
  all_goals rw [← h.2]

theorem builtin_join_depth (e : Lenv) (a : List Lval) (r : Lval) (e1 : Lenv)
    (h : builtin_join e a = .ok (r, e1)) : e1.depth = e.depth := by
  unfold builtin_join at h
  repeat' split at h
  all_goals simp at h
  all_goals rw [← h.2]

theorem builtin_cons_depth (e : Lenv) (a : List Lval) (r : Lval) (e1 : Lenv)
    (h : builtin_cons e a = .ok (r, e1)) : e1.depth = e.depth := by
  unfold builtin_cons at h
  repeat' split at h
  all_goals simp at h
  all_goals rw [← h.2]

theorem builtin_lambda_depth (e : Lenv) (a : List Lval) (r : Lval) (e1 : Lenv)
    (h : builtin_lambda e a = .ok (r, e1)) : e1.depth = e.depth := by
  unfold builtin_lambda at h
  repeat' split at h
  all_goals simp at h
  all_goals rw [← h.2]

theorem builtin_comp_depth (e : Lenv) (a : List Lval) (comp : String) (r : Lval) (e1 : Lenv)
    (h : builtin_comp e a comp = .ok (r, e1)) : e1.depth = e.depth := by
  unfold builtin_comp at h
  split at h
  · split at h
    all_goals simp at h
    all_goals rw [← h.2]
  · simp at h
    rw [← h.2]

theorem builtin_eqv_depth (e : Lenv) (a : List Lval) (r : Lval) (e1 : Lenv)
    (h : builtin_eqv e a = .ok (r, e1)) : e1.depth = e.depth := by
  unfold builtin_eqv at h
  repeat' split at h
  all_goals simp at h
  all_goals rw [← h.2]

theorem builtin_eval_depth (ev : Evaluator) (hev : keeps_depth ev) (e : Lenv) (a : List Lval)
    (r : Lval) (e1 : Lenv) (h : builtin_eval ev e a = .ok (r, e1)) : e1.depth = e.depth := by
  unfold builtin_eval at h
  split at h
  · exact hev _ _ _ _ h
  · simp at h; rw [← h.2]
  · simp at h; rw [← h.2]

theorem builtin_if_depth (ev : Evaluator) (hev : keeps_depth ev) (e : Lenv) (a : List Lval)
    (r : Lval) (e1 : Lenv) (h : builtin_if ev e a = .ok (r, e1)) : e1.depth = e.depth := by
  unfold builtin_if at h
  split at h
  · split at h <;> exact hev _ _ _ _ h
  all_goals simp at h
  all_goals rw [← h.2]

theorem builtin_load_loop_depth (ev : Evaluator) (hev : keeps_depth ev) (xs : List Lval) :
    ∀ (e e1 : Lenv), builtin_load_loop ev e xs = .ok e1 → e1.depth = e.depth := by
  induction xs with
  | nil => intro e e1 h; simp [builtin_load_loop] at h; rw [← h]
  | cons x xs ih =>
    intro e e1 h
    simp only [builtin_load_loop] at h
    split at h
    · rename_i r e2 hx
      rw [ih _ _ h, hev _ _ _ _ hx]
    · simp at h
    · simp at h

theorem builtin_load_depth (parse : String → Except String (List Lval)) (ev : Evaluator)
    (hev : keeps_depth ev) (e : Lenv) (a : List Lval)
    (r : Lval) (e1 : Lenv) (h : builtin_load parse ev e a = .ok (r, e1)) :
    e1.depth = e.depth := by
  unfold builtin_load at h
  split at h
  · split at h
    · split at h
      · rename_i e2 hl
        simp at h
        rw [← h.2]
        exact builtin_load_loop_depth ev hev _ _ _ hl
      · simp at h
      · simp at h
    · simp at h; rw [← h.2]
  · simp at h; rw [← h.2]
  · simp at h; rw [← h.2]

theorem call_builtin_depth (parse : String → Except String (List Lval)) (ev : Evaluator)
    (hev : keeps_depth ev) (b : Builtin) (e : Lenv) (a : List Lval)
    (r : Lval) (e1 : Lenv) (h : call_builtin parse ev b e a = .ok (r, e1)) :
    e1.depth = e.depth := by
  cases b <;> simp only [call_builtin] at h
  · exact builtin_cons_depth _ _ _ _ h
  · simp [builtin_list] at h; rw [← h.2]
  · exact builtin_head_depth _ _ _ _ h
  · exact builtin_tail_depth _ _ _ _ h
  · exact builtin_eval_depth ev hev _ _ _ _ h
  · exact builtin_join_depth _ _ _ _ h
  · exact builtin_init_depth _ _ _ _ h
  · exact builtin_var_depth _ _ _ _ _ h
  · exact builtin_var_depth _ _ _ _ _ h
  · exact builtin_lambda_depth _ _ _ _ h
  · exact builtin_if_depth ev hev _ _ _ _ h
  · exact builtin_op_depth _ _ _ _ _ h
  · exact builtin_op_depth _ _ _ _ _ h
  · exact builtin_op_depth _ _ _ _ _ h
  · exact builtin_op_depth _ _ _ _ _ h
  · exact builtin_op_depth _ _ _ _ _ h
  · exact builtin_op_depth _ _ _ _ _ h
  · exact builtin_eqv_depth _ _ _ _ h
  · exact builtin_comp_depth _ _ _ _ _ h
  · exact builtin_comp_depth _ _ _ _ _ h
  · exact builtin_comp_depth _ _ _ _ _ h
  · exact builtin_comp_depth _ _ _ _ _ h
  · exact builtin_comp_depth _ _ _ _ _ h
  · exact builtin_comp_depth _ _ _ _ _ h
  · exact builtin_load_depth parse ev hev _ _ _ _ h

/-- With an evaluator that keeps the shape of the chain, the body evaluation of `lval_call`
finds the caller's environment as the parent of `f->env` again. -/
theorem lval_call_body_depth (ev : Evaluator) (hev : keeps_depth ev)
    (b : List (String × Lval)) (e : Lenv) (body r : Lval) (e1 : Lenv)
    (h : lval_call_body ev (.child b e) body = .ok (r, e1)) : e1.depth = e.depth := by
  unfold lval_call_body at h
  split at h
  · rename_i r1 fenv1 hb
    have hd := builtin_eval_depth ev hev _ _ _ _ hb
    split at h
    · rename_i e2 hp
      simp at h
      rw [← h.2]
      cases fenv1 with
      | root _ => simp [Lenv.par] at hp
      | child b2 p2 =>
        simp [Lenv.par] at hp
        subst hp
        simpa [Lenv.depth] using hd
    · simp at h
  · simp at h
  · simp at h

theorem lval_call_body_defined (ev : Evaluator) (hev : keeps_depth ev)
    (b : List (String × Lval)) (e : Lenv) (body r : Lval) (fenv1 : Lenv)
    (h : builtin_eval ev (.child b e) [lval_copy body] = .ok (r, fenv1)) :
    ∃ e1, fenv1.par = some e1 ∧ lval_call_body ev (.child b e) body = .ok (r, e1) := by
  have hd := builtin_eval_depth ev hev _ _ _ _ h
  cases fenv1 with
  | root _ => simp [Lenv.depth] at hd
  | child b2 p2 => exact ⟨p2, rfl, by simp [lval_call_body, h, Lenv.par]⟩

theorem lval_call_depth (parse : String → Except String (List Lval)) (ev : Evaluator)
    (hev : keeps_depth ev) (e : Lenv) (f : Lval) (a : List Lval)
    (r : Lval) (e1 : Lenv) (h : lval_call parse ev e f a = .ok (r, e1)) :
    e1.depth = e.depth := by
  unfold lval_call at h
  split at h
  · exact call_builtin_depth parse ev hev _ _ _ _ _ h
  · unfold lval_call_lambda at h
    repeat' split at h
    all_goals try simp at h
    all_goals try (rw [← h.2])
    rename_i h2
    unfold lval_call_finish at h
    split at h
    · exact lval_call_body_depth ev hev _ _ _ _ _ h
    · simp at h; rw [← h.2]
  · simp at h

theorem eval_cells_depth (ev : Evaluator) (hev : keeps_depth ev) (cs : List Lval) :
    ∀ (e : Lenv) (rs : List Lval) (e1 : Lenv), eval_cells ev e cs = .ok (rs, e1) →
      e1.depth = e.depth := by
  induction cs with
  | nil => intro e rs e1 h; simp [eval_cells] at h; rw [← h.2]
  | cons c cs ih =>
    intro e rs e1 h
    simp only [eval_cells] at h
    split at h
    · rename_i c1 e2 hc
      split at h
      · rename_i cs1 e3 hcs
        simp at h
        rw [← h.2, ih _ _ _ hcs, hev _ _ _ _ hc]
      · simp at h
      · simp at h
    · simp at h
    · simp at h

theorem lval_eval_sexpr_depth (parse : String → Except String (List Lval)) (ev : Evaluator)
    (hev : keeps_depth ev) (e : Lenv) (cell : List Lval)
    (r : Lval) (e1 : Lenv) (h : lval_eval_sexpr parse ev e cell = .ok (r, e1)) :
    e1.depth = e.depth := by
  unfold lval_eval_sexpr at h
  split at h
  · rename_i cs e2 hc
    have hd := eval_cells_depth ev hev _ _ _ _ hc
    repeat' split at h
    all_goals try simp at h
    all_goals try (rw [← h.2, hd])
    rw [lval_call_depth parse ev hev _ _ _ _ _ h, hd]
  · simp at h
  · simp at h

theorem lval_eval_depth (parse : String → Except String (List Lval)) :
    ∀ fuel : Nat, keeps_depth (lval_eval parse fuel) := by
  intro fuel
  induction fuel with
  | zero => intro e v r e1 h; simp [lval_eval] at h
  | succ n ih =>
    intro e v r e1 h
    unfold lval_eval at h
    split at h
    · simp at h; rw [← h.2]
    · exact lval_eval_sexpr_depth parse _ ih _ _ _ _ h
    · simp at h; rw [← h.2]

/-! ## Division and remainder by zero -/

/-- C2: the modulo primitive does not return an Error on a zero divisor.  For every
environment and every Number `x`, `builtin_op` with `"%"` on the operands `x` and `0` reaches
`x->num %= y->num` with `y->num == 0`, which has no defined result; the same happens when
`(% 1 0)` is evaluated in the root environment. -/
theorem builtin_op_mod_by_zero_undefined :
    (∀ (e : Lenv) (x : Int), builtin_op e [.num x, .num 0] "%" = Res.undefined)
      ∧ (∀ (parse : String → Except String (List Lval)) (fuel : Nat),
          lval_eval parse (fuel + 2) root_env (.sexpr [.sym "%", .num 1, .num 0])
            = Res.undefined) := by
  constructor
  · intro e x
    simp [builtin_op, all_nums, Lval.num?, builtin_op_loop]
  · intro parse fuel
    rfl

/-- C3: in the root environment built by `lenv_add_builtins` the symbol `=` is bound to the
comparison `builtin_eq`, because the later registration of `=` replaces `builtin_put`.
Evaluating `(= {x} n)` for a Number `n` there returns the Error of `builtin_comp` and leaves the
environment unchanged, so `x` is still unbound afterwards.  The operation `builtin_put` itself
does bind `x` to the value in the scope it is called in. -/
theorem root_env_eq_is_comparison :
    lenv_get root_env "=" = .builtin .eq
      ∧ (∀ (parse : String → Except String (List Lval)) (fuel : Nat) (n : Int),
          lval_eval parse (fuel + 2) root_env (.sexpr [.sym "=", .qexpr [.sym "x"], .num n])
            = .ok (lval_err "Comparison cannot operate on a non-number!", root_env))
      ∧ lenv_get root_env "x" = lval_err "unbound symbol 'x'!"
      ∧ (∀ (parse : String → Except String (List Lval)) (ev : Evaluator) (e : Lenv)
          (x : String) (v : Lval),
          call_builtin parse ev .put e [.qexpr [.sym x], v] = .ok (.sexpr [], lenv_put e x v)) := by
  refine ⟨rfl, ?_, rfl, ?_⟩
  · intro parse fuel n
    rfl
  · intro parse ev e x v
    simp [call_builtin, builtin_var, all_syms, Lval.sym?, builtin_var_loop]

/-- C6: `if` evaluates only the selected branch.  For every evaluator, environment, Boolean `c`
and Q-expressions `t` and `f`, `builtin_if` on `[c, t, f]` is exactly the evaluation of `t`
as an S-expression in `e` when `c` is true and of `f` when `c` is false (value and resulting
environment); and `(if #t {1} {/ 1 0})` evaluates in the root environment to the Number 1 with
the environment unchanged. -/
theorem builtin_if_selected_branch :
    (∀ (ev : Evaluator) (e : Lenv) (c : Bool) (t f : List Lval),
        builtin_if ev e [.bool c, .qexpr t, .qexpr f]
          = if c then ev e (.sexpr t) else ev e (.sexpr f))
      ∧ (∀ (parse : String → Except String (List Lval)) (fuel : Nat),
          lval_eval parse (fuel + 3) root_env
              (.sexpr [.sym "if", .bool true, .qexpr [.num 1],
                .qexpr [.sym "/", .num 1, .num 0]])
            = .ok (.num 1, root_env)) := by
  constructor
  · intro ev e c t f
    rfl
  · intro parse fuel
    rfl

/-! ## Function application -/

/-- C4: partial application agrees with full application.  For every evaluator, caller
environment `e`, lambda `f` whose formals are the two symbols `x` and `y` (neither is `&`) and
all arguments `a` and `b`: `lval_call` of `f` on `[a]` returns, with `e` unchanged, a function
`g`, and `lval_call` of `g` on `[b]` has the same outcome (value and environment) as
`lval_call` of `f` on `[a, b]`. -/
theorem lval_call_partial_then_full (parse : String → Except String (List Lval))
    (ev : Evaluator) (e : Lenv) (env : List (String × Lval)) (x y : String) (body a b : Lval)
    (hx : x ≠ "&") (hy : y ≠ "&") :
    ∃ g : Lval,
      lval_call parse ev e (.lambda env (.qexpr [.sym x, .sym y]) body) [a] = .ok (g, e)
        ∧ g.isFun = true
        ∧ lval_call parse ev e g [b]
            = lval_call parse ev e (.lambda env (.qexpr [.sym x, .sym y]) body) [a, b] := by
  refine ⟨.lambda (scope_put env x a) (.qexpr [.sym y]) body, ?_, rfl, ?_⟩
  · simp [lval_call, lval_call_lambda, Lval.cells?, lval_call_loop, lval_call_rest,
      lval_call_finish, lenv_put, Lenv.binds, Lval.setCells, lval_copy_eq, hx, hy]
  · simp [lval_call, lval_call_lambda, Lval.cells?, lval_call_loop, lval_call_rest,
      lval_call_finish, lenv_put, Lenv.binds, hx, hy]

theorem lval_call_partial_then_full_witness :
    ("x" : String) ≠ "&" ∧ ("y" : String) ≠ "&" ∧
    ∃ g : Lval,
      lval_call (fun _ => .error "") (lval_eval (fun _ => .error "") 3) root_env
          (.lambda [] (.qexpr [.sym "x", .sym "y"]) (.qexpr [.sym "-", .sym "x", .sym "y"]))
          [.num 7] = .ok (g, root_env)
        ∧ g.isFun = true
        ∧ lval_call (fun _ => .error "") (lval_eval (fun _ => .error "") 3) root_env g [.num 2]
            = lval_call (fun _ => .error "") (lval_eval (fun _ => .error "") 3) root_env
                (.lambda [] (.qexpr [.sym "x", .sym "y"]) (.qexpr [.sym "-", .sym "x", .sym "y"]))
                [.num 7, .num 2] :=
  ⟨by decide, by decide,
    lval_call_partial_then_full (fun _ => .error "") (lval_eval (fun _ => .error "") 3)
      root_env [] "x" "y" (.qexpr [.sym "-", .sym "x", .sym "y"]) (.num 7) (.num 2)
      (by decide) (by decide)⟩

theorem scope_find_bound_scope_other (k : String) (xs : List String) :
    ∀ (env : List (String × Lval)) (vs : List Lval), k ∉ xs →
      scope_find (bound_scope env xs vs) k = scope_find env k := by
  induction xs with
  | nil => intro env vs _; simp [bound_scope]
  | cons x xs ih =>
    intro env vs hk
    cases vs with
    | nil => simp [bound_scope]
    | cons v vs =>
      have hkx : k ≠ x := fun h => hk (by simp [h])
      have hkxs : k ∉ xs := fun h => hk (List.mem_cons_of_mem _ h)
      have := ih (scope_put env x v) vs hkxs
      simp only [bound_scope, List.zip_cons_cons, List.foldl_cons] at this ⊢
      rw [this, scope_find_put_other _ _ _ _ hkx]

theorem bound_scope_append (l1 l2 : List String) (w1 w2 : List Lval)
    (env : List (String × Lval)) (h : w1.length = l1.length) :
    bound_scope env (l1 ++ l2) (w1 ++ w2) = bound_scope (bound_scope env l1 w1) l2 w2 := by
  simp [bound_scope, List.zip_append h.symm, List.foldl_append]

theorem scope_find_bound_scope_formal (l1 l2 : List String) (w1 w2 : List Lval) (x : String)
    (a : Lval) (env : List (String × Lval)) (h : w1.length = l1.length) (hx : x ∉ l2) :
    scope_find (bound_scope env (l1 ++ x :: l2) (w1 ++ a :: w2)) x = some a := by
  rw [bound_scope_append l1 (x :: l2) w1 (a :: w2) env h]
  have := scope_find_bound_scope_other x l2 (scope_put (bound_scope env l1 w1) x a) w2 hx
  simp only [bound_scope, List.zip_cons_cons, List.foldl_cons] at this ⊢
  rw [this, scope_find_put_same]

theorem scope_find_of_binds (b : List (String × Lval)) (k : String) (h : scope_binds b k) :
    ∃ v, scope_find b k = some v := by
  cases hf : scope_find b k with
  | some v => exact ⟨v, rfl⟩
  | none =>
    exfalso
    induction b with
    | nil => simp [scope_binds] at h
    | cons hd tl ih =>
      obtain ⟨s, w⟩ := hd
      by_cases hs : s = k
      · simp [scope_find, hs] at hf
      · simp [scope_find, hs] at hf
        simp only [scope_binds, List.map_cons, List.mem_cons] at h
        rcases h with h | h
        · exact hs h.symm
        · exact ih h hf

theorem lenv_get_innermost (k : String) (v : Lval) (s : List (String × Lval))
    (post : List (List (String × Lval))) (hs : scope_find s k = some v) :
    ∀ (e : Lenv) (pre : List (List (String × Lval))), e.scopes = pre ++ s :: post →
      (∀ b ∈ pre, ¬ scope_binds b k) → lenv_get e k = v := by
  intro e
  induction e with
  | root b =>
    intro pre hsc _
    cases pre with
    | nil =>
      simp [Lenv.scopes] at hsc
      simp [lenv_get, hsc.1, hs, lval_copy_eq]
    | cons p ps => simp [Lenv.scopes] at hsc
  | child b p ih =>
    intro pre hsc hpre
    cases pre with
    | nil =>
      simp [Lenv.scopes] at hsc
      simp [lenv_get, hsc.1, hs, lval_copy_eq]
    | cons q qs =>
      simp only [Lenv.scopes, List.cons_append, List.cons.injEq] at hsc
      have hb : scope_find b k = none := by
        rw [hsc.1]
        exact scope_find_eq_none q k (hpre q (List.mem_cons_self _ _))
      simp only [lenv_get, hb]
      exact ih qs hsc.2 (fun b hbm => hpre b (List.mem_cons_of_mem _ hbm))

theorem lenv_get_unbound (k : String) :
    ∀ e : Lenv, (∀ b ∈ e.scopes, ¬ scope_binds b k) →
      lenv_get e k = lval_err ("unbound symbol '" ++ k ++ "'!") := by
  intro e
  induction e with
  | root b =>
    intro h
    simp [lenv_get, scope_find_eq_none b k (h b (by simp [Lenv.scopes]))]
  | child b p ih =>
    intro h
    simp only [lenv_get, scope_find_eq_none b k (h b (by simp [Lenv.scopes]))]
    exact ih (fun c hc => h c (by simp [Lenv.scopes, hc]))

theorem lenv_get_isErr_unbound (k : String) :
    ∀ e : Lenv, (∀ b ∈ e.scopes, ∀ p ∈ b, p.2.isErr = false) →
      (lenv_get e k).isErr = true → ∀ b ∈ e.scopes, ¬ scope_binds b k := by
  intro e
  induction e with
  | root b =>
    intro hno herr c hc hbind
    simp [Lenv.scopes] at hc
    subst hc
    obtain ⟨v, hv⟩ := scope_find_of_binds c k hbind
    have hmem := (scope_binds_of_find c k v hv).2
    have := hno c (by simp [Lenv.scopes]) (k, v) hmem
    simp [lenv_get, hv, lval_copy_eq] at herr
    simp [herr] at this
  | child b p ih =>
    intro hno herr c hc hbind
    cases hfb : scope_find b k with
    | some v =>
      have hmem := (scope_binds_of_find b k v hfb).2
      have := hno b (by simp [Lenv.scopes]) (k, v) hmem
      simp [lenv_get, hfb, lval_copy_eq] at herr
      simp [herr] at this
    | none =>
      simp only [lenv_get, hfb] at herr
      simp only [Lenv.scopes, List.mem_cons] at hc
      rcases hc with hc | hc
      · subst hc
        obtain ⟨v, hv⟩ := scope_find_of_binds c k hbind
        simp [hv] at hfb
      · exact ih (fun d hd => hno d (by simp [Lenv.scopes, hd])) herr c hc hbind

/-- C8 (amended): `lenv_get` resolves a name to the binding of the innermost scope of the
parent chain that binds it (within a scope, the first index holding the name), and returns the
Error "unbound symbol" when no scope of the chain, the root included, binds the name.  When no
binding of the chain holds an Error value, the result is an Error if and only if no scope of
the chain binds the name. -/
theorem lenv_get_resolves (e : Lenv) (k : String) :
    (∀ (pre post : List (List (String × Lval))) (l1 l2 : List (String × Lval)) (v : Lval),
        e.scopes = pre ++ (l1 ++ (k, v) :: l2) :: post →
        (∀ b ∈ pre, ¬ scope_binds b k) → ¬ scope_binds l1 k → lenv_get e k = v)
      ∧ ((∀ b ∈ e.scopes, ¬ scope_binds b k) →
          lenv_get e k = lval_err ("unbound symbol '" ++ k ++ "'!"))
      ∧ ((∀ b ∈ e.scopes, ∀ p ∈ b, p.2.isErr = false) →
          ((lenv_get e k).isErr = true ↔ ∀ b ∈ e.scopes, ¬ scope_binds b k)) := by
  refine ⟨?_, lenv_get_unbound k e, ?_⟩
  · intro pre post l1 l2 v hsc hpre hl1
    exact lenv_get_innermost k v (l1 ++ (k, v) :: l2) post (scope_find_first l1 l2 k v hl1)
      e pre hsc hpre
  · intro hno
    constructor
    · exact lenv_get_isErr_unbound k e hno
    · intro hun
      rw [lenv_get_unbound k e hun]
      rfl

theorem lenv_get_resolves_witness :
    lenv_get (.child [("a", .num 1)] (.root [("b", .num 2), ("k", .num 3), ("k", .num 4)])) "k"
        = .num 3
      ∧ lenv_get (.child [("a", .num 1)] (.root [("b", .num 2)])) "k"
        = lval_err ("unbound symbol '" ++ "k" ++ "'!")
      ∧ ((lenv_get (.child [("a", .num 1)] (.root [("b", .num 2)])) "k").isErr = true ↔
          ∀ b ∈ (Lenv.child [("a", .num 1)] (.root [("b", .num 2)])).scopes,
            ¬ scope_binds b "k") :=
  ⟨(lenv_get_resolves
      (.child [("a", .num 1)] (.root [("b", .num 2), ("k", .num 3), ("k", .num 4)])) "k").1
      [[("a", .num 1)]] [] [("b", .num 2)] [("k", .num 4)] (.num 3) rfl (by decide) (by decide),
    (lenv_get_resolves (.child [("a", .num 1)] (.root [("b", .num 2)])) "k").2.1 (by decide),
    (lenv_get_resolves (.child [("a", .num 1)] (.root [("b", .num 2)])) "k").2.2
      (by simp [Lenv.scopes, Lval.isErr])⟩

/-- C8, as stated, fails: a root scope that binds `x` to the Error value
"unbound symbol 'x'!" makes `lenv_get` return that 'unbound symbol' Error although the chain
binds `x`. -/
theorem lenv_get_unbound_iff_counterexample :
    scope_binds [("x", lval_err "unbound symbol 'x'!")] "x"
      ∧ lenv_get (.root [("x", lval_err "unbound symbol 'x'!")]) "x"
          = lval_err ("unbound symbol '" ++ "x" ++ "'!") :=
  ⟨by decide, rfl⟩

/-- C9: shadowing.  For every child environment with bindings `cb` and parent `p`,
`lenv_put` of `k` to `v` in the child leaves the parent chain `p` as it was, `lenv_get` of `k`
on the child then returns `v`, and on any other child of `p` whose own scope does not bind `k`
`lenv_get` of `k` still returns what it returns on `p`. -/
theorem lenv_put_shadowing (cb sb : List (String × Lval)) (p : Lenv) (k : String) (v : Lval)
    (hsb : ¬ scope_binds sb k) :
    (lenv_put (.child cb p) k v).par = some p
      ∧ lenv_get (lenv_put (.child cb p) k v) k = v
      ∧ lenv_get (.child sb p) k = lenv_get p k := by
  refine ⟨rfl, ?_, ?_⟩
  · simp [lenv_put, lenv_get, scope_find_put_same, lval_copy_eq]
  · simp [lenv_get, scope_find_eq_none sb k hsb]

theorem lenv_put_shadowing_witness :
    ¬ scope_binds [("y", Lval.num 9)] "x"
      ∧ (lenv_put (.child [] (.root [("x", .num 1)])) "x" (.num 2)).par
          = some (.root [("x", .num 1)])
      ∧ lenv_get (lenv_put (.child [] (.root [("x", .num 1)])) "x" (.num 2)) "x" = .num 2
      ∧ lenv_get (.child [("y", .num 9)] (.root [("x", .num 1)])) "x"
          = lenv_get (.root [("x", .num 1)]) "x" :=
  ⟨by decide,
    lenv_put_shadowing [] [("y", .num 9)] (.root [("x", .num 1)]) "x" (.num 2) (by decide)⟩

theorem lenv_def_inner_scopes (k : String) (v : Lval) :
    ∀ e : Lenv, (lenv_def e k v).inner_scopes = e.inner_scopes := by
  intro e
  induction e with
  | root b => rfl
  | child b p ih => simp [lenv_def, Lenv.inner_scopes, ih]

theorem lenv_def_root_scope (k : String) (v : Lval) :
    ∀ e : Lenv, (lenv_def e k v).root_scope = scope_put e.root_scope k v := by
  intro e
  induction e with
  | root b => rfl
  | child b p ih => simp [lenv_def, Lenv.root_scope, ih]

theorem lenv_get_through_inner (k : String) :
    ∀ e : Lenv, (∀ b ∈ e.inner_scopes, ¬ scope_binds b k) →
      lenv_get e k = lenv_get (.root e.root_scope) k := by
  intro e
  induction e with
  | root b => intro _; rfl
  | child b p ih =>
    intro h
    have hb : scope_find b k = none :=
      scope_find_eq_none b k (h b (by simp [Lenv.inner_scopes]))
    simp only [lenv_get, hb, Lenv.root_scope]
    exact ih (fun c hc => h c (by simp [Lenv.inner_scopes, hc]))

/-- C10: `lenv_def e k v` changes no scope of the chain that has a parent, and in the root
scope of the chain it upserts `k` to `v` exactly as `lenv_put` does (afterwards the root binds
`k` to `v` and every other name as before).  Afterwards `lenv_get` of `k` from the root returns
`v`, and `lenv_get` of `k` from `e` returns `v` when no non-root scope of the chain binds `k`. -/
theorem lenv_def_upserts_root (e : Lenv) (k : String) (v : Lval) :
    (lenv_def e k v).inner_scopes = e.inner_scopes
      ∧ (lenv_def e k v).root_scope = (lenv_put (.root e.root_scope) k v).binds
      ∧ scope_find (lenv_def e k v).root_scope k = some v
      ∧ (∀ j, j ≠ k → scope_find (lenv_def e k v).root_scope j = scope_find e.root_scope j)
      ∧ lenv_get (.root (lenv_def e k v).root_scope) k = v
      ∧ ((∀ b ∈ e.inner_scopes, ¬ scope_binds b k) → lenv_get (lenv_def e k v) k = v) := by
  have hroot := lenv_def_root_scope k v e
  have hget : lenv_get (.root (lenv_def e k v).root_scope) k = v := by
    simp [hroot, lenv_get, scope_find_put_same, lval_copy_eq]
  refine ⟨lenv_def_inner_scopes k v e, ?_, ?_, ?_, hget, ?_⟩
  · simp [hroot, lenv_put, Lenv.binds]
  · simp [hroot, scope_find_put_same]
  · intro j hj
    rw [hroot, scope_find_put_other _ _ _ _ hj]
  · intro h
    have h1 : ∀ b ∈ (lenv_def e k v).inner_scopes, ¬ scope_binds b k := by
      rw [lenv_def_inner_scopes]
      exact h
    rw [lenv_get_through_inner k _ h1, hget]

theorem lenv_def_upserts_root_witness :
    (lenv_def (.child [("a", .num 1)] (.root [("x", .num 0)])) "x" (.num 7)).inner_scopes
        = [[("a", .num 1)]]
      ∧ lenv_get (lenv_def (.child [("a", .num 1)] (.root [("x", .num 0)])) "x" (.num 7)) "x"
        = .num 7 :=
  ⟨(lenv_def_upserts_root (.child [("a", .num 1)] (.root [("x", .num 0)])) "x" (.num 7)).1,
    (lenv_def_upserts_root (.child [("a", .num 1)] (.root [("x", .num 0)])) "x" (.num 7)).2.2.2.2.2
      (by decide)⟩

/-! ## Structural equality and copies -/

mutual
theorem lval_eqv_refl : ∀ v : Lval, lval_eqv v v = true
  | .num _ => by simp [lval_eqv]
  | .err _ => by simp [lval_eqv]
  | .builtin _ => by simp [lval_eqv]
  | .lambda _ formals body => by
    simp [lval_eqv, lval_eqv_refl formals, lval_eqv_refl body]
  | .bool _ => by simp [lval_eqv]
  | .str _ => by simp [lval_eqv]
  | .sym _ => by simp [lval_eqv]
  | .sexpr cell => by simp [lval_eqv, eqv_cells_refl cell]
  | .qexpr cell => by simp [lval_eqv, eqv_cells_refl cell]
theorem eqv_cells_refl : ∀ vs : List Lval, eqv_cells vs vs = true
  | [] => by simp [eqv_cells]
  | v :: vs => by simp [eqv_cells, lval_eqv_refl v, eqv_cells_refl vs]
end

/-- C11: clone round-trip.  For every value `v` (numbers, strings, symbols, Errors, nested
lists, builtins and lambdas alike) `lval_eqv (lval_copy v) v` is true. -/
theorem lval_copy_roundtrip (v : Lval) : lval_eqv (lval_copy v) v = true := by
  rw [lval_copy_eq]
  exact lval_eqv_refl v

/-! ## Evaluation of S-expressions -/

theorem find_isErr_leftmost (pre post : List Lval) (err : Lval)
    (hpre : ∀ c ∈ pre, c.isErr = false) (herr : err.isErr = true) :
    (pre ++ err :: post).find? Lval.isErr = some err := by
  induction pre with
  | nil => simp [List.find?, herr]
  | cons p ps ih =>
    have hp : p.isErr = false := hpre p (List.mem_cons_self _ _)
    rw [List.cons_append, List.find?_cons, hp]
    exact ih (fun c hc => hpre c (List.mem_cons_of_mem _ hc))

theorem find_isErr_none (cs : List Lval) (h : ∀ c ∈ cs, c.isErr = false) :
    cs.find? Lval.isErr = none := by
  simp [List.find?_eq_none]
  intro c hc
  simp [h c hc]

/-- C12: error propagation in `lval_eval_sexpr`.  The cells are evaluated from left to right
by `eval_cells`, which goes on to the remaining cells whatever the result of a cell is (second
part).  When that evaluation gives the results `cs` and the environment `e1`, and `err` is the
leftmost Error among `cs`, `lval_eval_sexpr` returns `err` together with `e1`, the environment
after the evaluation of all the cells. -/
theorem lval_eval_sexpr_error_propagation (parse : String → Except String (List Lval))
    (ev : Evaluator) (e e1 : Lenv) (cell cs pre post : List Lval) (err : Lval)
    (hcells : eval_cells ev e cell = .ok (cs, e1))
    (hsplit : cs = pre ++ err :: post)
    (hpre : ∀ c ∈ pre, c.isErr = false) (herr : err.isErr = true) :
    lval_eval_sexpr parse ev e cell = .ok (err, e1)
      ∧ (∀ (c c1 : Lval) (rest rest1 : List Lval) (e2 e3 e4 : Lenv),
          ev e2 c = .ok (c1, e3) → eval_cells ev e3 rest = .ok (rest1, e4) →
          eval_cells ev e2 (c :: rest) = .ok (c1 :: rest1, e4)) := by
  constructor
  · subst hsplit
    simp [lval_eval_sexpr, hcells, find_isErr_leftmost pre post err hpre herr]
  · intro c c1 rest rest1 e2 e3 e4 h1 h2
    simp [eval_cells, h1, h2]

theorem lval_eval_sexpr_error_propagation_witness :
    lval_eval (fun _ => .error "") 3 root_env
        (.sexpr [.sym "foo", .sexpr [.sym "/", .num 1, .num 0],
          .sexpr [.sym "def", .qexpr [.sym "y"], .num 2]])
      = .ok (lval_err "unbound symbol 'foo'!", lenv_def root_env "y" (.num 2)) :=
  (lval_eval_sexpr_error_propagation (fun _ => .error "") (lval_eval (fun _ => .error "") 2)
    root_env (lenv_def root_env "y" (.num 2))
    [.sym "foo", .sexpr [.sym "/", .num 1, .num 0],
      .sexpr [.sym "def", .qexpr [.sym "y"], .num 2]]
    [lval_err "unbound symbol 'foo'!", lval_err "Can't divide by 0", .sexpr []]
    [] [lval_err "Can't divide by 0", .sexpr []] (lval_err "unbound symbol 'foo'!")
    rfl rfl (by simp) rfl).1

/-- C13: when the evaluated cells `cs` of an S-expression contain no Error, `lval_eval_sexpr`
returns the empty S-expression when there is no cell, the single evaluated cell when there is
exactly one (a lone function is returned, not called), the Error "first element is not a
function!" when there are two or more and the first is not a function, and otherwise the result
of `lval_call` on the first cell and the remaining ones. -/
theorem lval_eval_sexpr_dispatch (parse : String → Except String (List Lval))
    (ev : Evaluator) (e e1 : Lenv) (cell cs : List Lval)
    (hcells : eval_cells ev e cell = .ok (cs, e1))
    (hno : ∀ c ∈ cs, c.isErr = false) :
    lval_eval_sexpr parse ev e [] = .ok (.sexpr [], e)
      ∧ (cs = [] → lval_eval_sexpr parse ev e cell = .ok (.sexpr [], e1))
      ∧ (∀ x, cs = [x] → lval_eval_sexpr parse ev e cell = .ok (x, e1))
      ∧ (∀ f a rest, cs = f :: a :: rest → f.isFun = false →
          lval_eval_sexpr parse ev e cell
            = .ok (lval_err "first element is not a function!", e1))
      ∧ (∀ f a rest, cs = f :: a :: rest → f.isFun = true →
          lval_eval_sexpr parse ev e cell = lval_call parse ev e1 f (a :: rest)) := by
  have hfind := find_isErr_none cs hno
  refine ⟨by simp [lval_eval_sexpr, eval_cells], ?_, ?_, ?_, ?_⟩
  · intro h
    subst h
    simp [lval_eval_sexpr, hcells]
  · intro x h
    subst h
    simp [lval_eval_sexpr, hcells, hfind]
  · intro f a rest h hf
    subst h
    simp [lval_eval_sexpr, hcells, hfind, hf]
  · intro f a rest h hf
    subst h
    simp [lval_eval_sexpr, hcells, hfind, hf]

theorem lval_eval_sexpr_dispatch_witness :
    lval_eval_sexpr (fun _ => .error "") (lval_eval (fun _ => .error "") 2) root_env [.sym "+"]
        = .ok (.builtin .add, root_env)
      ∧ lval_eval_sexpr (fun _ => .error "") (lval_eval (fun _ => .error "") 2) root_env
          [.num 1, .num 2]
        = .ok (lval_err "first element is not a function!", root_env)
      ∧ lval_eval_sexpr (fun _ => .error "") (lval_eval (fun _ => .error "") 2) root_env
          [.sym "+", .num 1, .num 2]
        = lval_call (fun _ => .error "") (lval_eval (fun _ => .error "") 2) root_env
            (.builtin .add) [.num 1, .num 2] :=
  ⟨(lval_eval_sexpr_dispatch (fun _ => .error "") (lval_eval (fun _ => .error "") 2)
      root_env root_env [.sym "+"] [.builtin .add] rfl (by simp [Lval.isErr])).2.2.1 _ rfl,
   (lval_eval_sexpr_dispatch (fun _ => .error "") (lval_eval (fun _ => .error "") 2)
      root_env root_env [.num 1, .num 2] [.num 1, .num 2] rfl
      (by simp [Lval.isErr])).2.2.2.1 _ _ _ rfl rfl,
   (lval_eval_sexpr_dispatch (fun _ => .error "") (lval_eval (fun _ => .error "") 2)
      root_env root_env [.sym "+", .num 1, .num 2] [.builtin .add, .num 1, .num 2] rfl
      (by simp [Lval.isErr])).2.2.2.2 _ _ _ rfl rfl⟩

/-- C14: `builtin_eqv` checks only that its argument list is not empty.  On exactly two
arguments it returns the Boolean `lval_eqv x y`; on exactly one argument it reads `a->cell[1]`
outside the list, which has no defined result; on three or more arguments it returns the
Boolean for the first two and no Error, as `(eqv? 1 1 2)` does in the root environment. -/
theorem builtin_eqv_arity :
    (∀ (e : Lenv) (x y : Lval), builtin_eqv e [x, y] = .ok (.bool (lval_eqv x y), e))
      ∧ (∀ (e : Lenv) (x : Lval), builtin_eqv e [x] = Res.undefined)
      ∧ (∀ (e : Lenv) (x y z : Lval) (rest : List Lval),
          builtin_eqv e (x :: y :: z :: rest) = .ok (.bool (lval_eqv x y), e))
      ∧ (∀ (parse : String → Except String (List Lval)) (fuel : Nat),
          lval_eval parse (fuel + 2) root_env (.sexpr [.sym "eqv?", .num 1, .num 1, .num 2])
            = .ok (.bool true, root_env)) := by
  refine ⟨fun _ _ _ => rfl, fun _ _ => rfl, fun _ _ _ _ _ => rfl, fun _ _ => rfl⟩

/-! ## Arithmetic -/

theorem all_nums_none_of_mem (a : List Lval) (c : Lval) (hc : c ∈ a) (hn : c.num? = none) :
    all_nums a = none := by
  induction a with
  | nil => simp at hc
  | cons v vs ih =>
    rcases List.mem_cons.mp hc with h | h
    · subst h
      simp [all_nums, hn]
    · have := ih h
      simp only [all_nums, this]
      split <;> simp_all

theorem builtin_op_loop_add (x : Int) (ys : List Int) :
    builtin_op_loop "+" x ys = .ok (.num (ys.foldl (fun acc y => wrap64 (acc + y)) x)) := by
  induction ys generalizing x with
  | nil => rfl
  | cons y ys ih => simp [builtin_op_loop, ih]

theorem builtin_op_loop_sub (x : Int) (ys : List Int) :
    builtin_op_loop "-" x ys = .ok (.num (ys.foldl (fun acc y => wrap64 (acc - y)) x)) := by
  induction ys generalizing x with
  | nil => rfl
  | cons y ys ih => simp [builtin_op_loop, ih]

theorem builtin_op_loop_mul (x : Int) (ys : List Int) :
    builtin_op_loop "*" x ys = .ok (.num (ys.foldl (fun acc y => wrap64 (acc * y)) x)) := by
  induction ys generalizing x with
  | nil => rfl
  | cons y ys ih => simp [builtin_op_loop, ih]

/-- C15: arithmetic fold.  On a Number `x` followed by the Numbers `ys`, `builtin_op` with
`+`, `*` or (for non-empty `ys`) `-` returns the Number obtained by folding the operator from
left to right over the operands, every intermediate result reduced to 64 bits by wrap-around; a
single operand is negated under `-` and returned as it is under `+` and `*`; and when some
operand is not a Number the result is the Error "Cannot operate on a non-number!". -/
theorem builtin_op_arith_fold (e : Lenv) (x : Int) (ys : List Int) :
    builtin_op e ((x :: ys).map Lval.num) "+"
        = .ok (.num (ys.foldl (fun acc y => wrap64 (acc + y)) x), e)
      ∧ builtin_op e ((x :: ys).map Lval.num) "*"
        = .ok (.num (ys.foldl (fun acc y => wrap64 (acc * y)) x), e)
      ∧ (ys ≠ [] → builtin_op e ((x :: ys).map Lval.num) "-"
        = .ok (.num (ys.foldl (fun acc y => wrap64 (acc - y)) x), e))
      ∧ builtin_op e [.num x] "-" = .ok (.num (wrap64 (-x)), e)
      ∧ builtin_op e [.num x] "+" = .ok (.num x, e)
      ∧ builtin_op e [.num x] "*" = .ok (.num x, e)
      ∧ (∀ (a : List Lval) (op : String), (∃ c ∈ a, c.num? = none) →
          builtin_op e a op = .ok (lval_err "Cannot operate on a non-number!", e)) := by
  have hn : all_nums ((x :: ys).map Lval.num) = some (x :: ys) := all_nums_map_num (x :: ys)
  refine ⟨?_, ?_, ?_, ?_, ?_, ?_, ?_⟩
  · unfold builtin_op
    rw [hn]
    simp [builtin_op_loop_add]
  · unfold builtin_op
    rw [hn]
    simp [builtin_op_loop_mul]
  · intro hys
    unfold builtin_op
    rw [hn]
    simp [builtin_op_loop_sub, hys]
  · simp [builtin_op, all_nums, Lval.num?, builtin_op_loop]
  · simp [builtin_op, all_nums, Lval.num?, builtin_op_loop]
  · simp [builtin_op, all_nums, Lval.num?, builtin_op_loop]
  · rintro a op ⟨c, hc, hcn⟩
    simp [builtin_op, all_nums_none_of_mem a c hc hcn]

theorem builtin_op_arith_fold_witness :
    builtin_op lenv_new [.num 1, .num 2, .num 3] "+" = .ok (.num 6, lenv_new)
      ∧ builtin_op lenv_new [.num 9223372036854775807, .num 1] "+"
          = .ok (.num (-9223372036854775808), lenv_new)
      ∧ builtin_op lenv_new [.num 1, .sym "x"] "*"
          = .ok (lval_err "Cannot operate on a non-number!", lenv_new) :=
  ⟨(builtin_op_arith_fold lenv_new 1 [2, 3]).1,
   (builtin_op_arith_fold lenv_new 9223372036854775807 [1]).1,
   (builtin_op_arith_fold lenv_new 0 []).2.2.2.2.2.2 [.num 1, .sym "x"] "*"
     ⟨.sym "x", by simp, rfl⟩⟩

/-! ## Exponentiation -/

theorem wrap64_emod (z : Int) : wrap64 z % 18446744073709551616 = z % 18446744073709551616 := by
  unfold wrap64
  omega

theorem wrap64_congr (a b : Int) (h : a % 18446744073709551616 = b % 18446744073709551616) :
    wrap64 a = wrap64 b := by
  unfold wrap64
  omega

theorem wrap64_idem (z : Int) : wrap64 (wrap64 z) = wrap64 z :=
  wrap64_congr _ _ (wrap64_emod z)

theorem wrap64_modEq (z : Int) : Int.ModEq 18446744073709551616 (wrap64 z) z :=
  wrap64_emod z

theorem lpow_loop_spec (n : Nat) :
    ∀ (r x : Int) (k : Nat), k < 2 ^ n →
      ∃ r1, lpow_loop (n + 1) r x (k : Int) = .ok r1
        ∧ Int.ModEq 18446744073709551616 r1 (r * x ^ k)
        ∧ (wrap64 r = r → wrap64 r1 = r1) := by
  induction n with
  | zero =>
    intro r x k hk
    have : k = 0 := by omega
    subst this
    exact ⟨r, by simp [lpow_loop], by simp [Int.ModEq], fun h => h⟩
  | succ n ih =>
    intro r x k hk
    by_cases hk0 : k = 0
    · subst hk0
      exact ⟨r, by simp [lpow_loop], by simp [Int.ModEq], fun h => h⟩
    · have hk2 : k / 2 < 2 ^ n := by
        rw [pow_succ] at hk
        omega
      have hkz : ¬ ((k : Int) = 0) := by omega
      have hdiv : ((k : Int) / 2) = ((k / 2 : Nat) : Int) := by omega
      have hx : x ^ k = (x * x) ^ (k / 2) * x ^ (k % 2) := by
        rw [← pow_two, ← pow_mul, ← pow_add]
        congr 1
        omega
      have hsq : Int.ModEq 18446744073709551616 ((wrap64 (x * x)) ^ (k / 2)) ((x * x) ^ (k / 2)) :=
        (wrap64_modEq (x * x)).pow _
      by_cases hodd : k % 2 = 1
      · have hoddz : ¬ ((k : Int) % 2 = 0) := by omega
        obtain ⟨r1, hr1, hmod, hrange⟩ := ih (wrap64 (r * x)) (wrap64 (x * x)) (k / 2) hk2
        refine ⟨r1, ?_, ?_, fun _ => hrange (wrap64_idem _)⟩
        · rw [lpow_loop, if_neg hkz]
          simp only [ne_eq, hoddz, not_false_eq_true, if_true, hdiv]
          exact hr1
        · refine hmod.trans ?_
          rw [hx, hodd, pow_one]
          have := (wrap64_modEq (r * x)).mul hsq
          refine this.trans ?_
          rw [show r * x * (x * x) ^ (k / 2) = r * ((x * x) ^ (k / 2) * x) by ring]
      · have hev : k % 2 = 0 := by omega
        have hevz : (k : Int) % 2 = 0 := by omega
        obtain ⟨r1, hr1, hmod, hrange⟩ := ih r (wrap64 (x * x)) (k / 2) hk2
        refine ⟨r1, ?_, ?_, hrange⟩
        · rw [lpow_loop, if_neg hkz]
          simp only [ne_eq, hevz, not_true_eq_false, if_false, hdiv]
          exact hr1
        · refine hmod.trans ?_
          rw [hx, hev, pow_zero, mul_one]
          exact (Int.ModEq.refl r).mul hsq

/-- C16: integer exponentiation.  For every `x` and every exponent `y` of a `long` that is not
negative, `lpow x y` returns `x` raised to the power `y` reduced to 64 bits by wrap-around; in
particular `lpow x 0` is 1. -/
theorem lpow_eq_wrapped_power (x y : Int) (h0 : 0 ≤ y) (hy : y < 9223372036854775808) :
    lpow x y = .ok (wrap64 (x ^ y.toNat)) ∧ lpow x 0 = .ok 1 := by
  refine ⟨?_, rfl⟩
  have hk : y.toNat < 2 ^ 63 := by
    have : (2 : Nat) ^ 63 = 9223372036854775808 := by norm_num
    omega
  obtain ⟨r1, hr1, hmod, hrange⟩ := lpow_loop_spec 63 1 x y.toNat hk
  have hyk : ((y.toNat : Nat) : Int) = y := Int.toNat_of_nonneg h0
  rw [hyk] at hr1
  have h1 : wrap64 r1 = r1 := hrange (by decide)
  unfold lpow
  rw [hr1, ← h1]
  congr 1
  apply wrap64_congr
  simpa [Int.ModEq] using hmod

theorem lpow_eq_wrapped_power_witness :
    (0 : Int) ≤ 10 ∧ (10 : Int) < 9223372036854775808
      ∧ lpow 2 10 = .ok (wrap64 (2 ^ (10 : Int).toNat)) ∧ lpow 2 0 = .ok 1 :=
  ⟨by decide, by decide, lpow_eq_wrapped_power 2 10 (by decide) (by decide)⟩

/-! ## Lists, comparisons, arity and definition -/

/-- C17: list destructuring.  On exactly one non-empty Q-expression `l`, `builtin_head` returns
the Q-expression holding only the first cell of `l`, `builtin_tail` returns `l` without its
first cell and `builtin_init` returns `l` without its last cell, and `builtin_join` on the head
and the tail gives `l` back.  On every other argument list (another length, an operand that is
not a Q-expression, the empty Q-expression) each of the three returns an Error and leaves the
environment as it was. -/
theorem builtin_head_tail_init (e : Lenv) :
    (∀ (v : Lval) (vs : List Lval),
        builtin_head e [.qexpr (v :: vs)] = .ok (.qexpr [v], e)
          ∧ builtin_tail e [.qexpr (v :: vs)] = .ok (.qexpr vs, e)
          ∧ builtin_init e [.qexpr (v :: vs)] = .ok (.qexpr (v :: vs).dropLast, e)
          ∧ builtin_join e [.qexpr [v], .qexpr vs] = .ok (.qexpr (v :: vs), e))
      ∧ (∀ a : List Lval, (¬ ∃ v vs, a = [.qexpr (v :: vs)]) →
          (∃ m, builtin_head e a = .ok (lval_err m, e))
            ∧ (∃ m, builtin_tail e a = .ok (lval_err m, e))
            ∧ (∃ m, builtin_init e a = .ok (lval_err m, e))) := by
  constructor
  · intro v vs
    exact ⟨rfl, rfl, rfl, by simp [builtin_join, join_cells]⟩
  · intro a ha
    refine ⟨?_, ?_, ?_⟩
    · unfold builtin_head
      split
      · exact ⟨_, rfl⟩
      · exact absurd ⟨_, _, rfl⟩ ha
      · exact ⟨_, rfl⟩
      · exact ⟨_, rfl⟩
    · unfold builtin_tail
      split
      · exact ⟨_, rfl⟩
      · exact absurd ⟨_, _, rfl⟩ ha
      · exact ⟨_, rfl⟩
      · exact ⟨_, rfl⟩
    · unfold builtin_init
      split
      · exact ⟨_, rfl⟩
      · exact absurd ⟨_, _, rfl⟩ ha
      · exact ⟨_, rfl⟩
      · exact ⟨_, rfl⟩

theorem builtin_head_tail_init_witness :
    builtin_head lenv_new [.qexpr [.num 1, .num 2, .num 3]] = .ok (.qexpr [.num 1], lenv_new)
      ∧ (∃ m, builtin_head lenv_new [.qexpr []] = .ok (lval_err m, lenv_new))
      ∧ (∃ m, builtin_init lenv_new [.num 1] = .ok (lval_err m, lenv_new))
      ∧ (∃ m, builtin_tail lenv_new [.qexpr [.num 1], .qexpr [.num 2]]
          = .ok (lval_err m, lenv_new)) :=
  ⟨((builtin_head_tail_init lenv_new).1 (.num 1) [.num 2, .num 3]).1,
   ((builtin_head_tail_init lenv_new).2 [.qexpr []] (by simp)).1,
   ((builtin_head_tail_init lenv_new).2 [.num 1] (by simp)).2.2,
   ((builtin_head_tail_init lenv_new).2 [.qexpr [.num 1], .qexpr [.num 2]] (by simp)).2.1⟩

/-- C18: comparisons.  On exactly two Numbers `x` and `y`, `builtin_comp` with `<`, `>`, `=`,
`!=`, `>=` or `<=` returns the Boolean of the corresponding relation between the integers `x`
and `y`; on every other argument list (another length or an operand that is not a Number) it
returns an Error. -/
theorem builtin_comp_relations (e : Lenv) :
    (∀ x y : Int,
        builtin_comp e [.num x, .num y] "<" = .ok (.bool (decide (x < y)), e)
          ∧ builtin_comp e [.num x, .num y] ">" = .ok (.bool (decide (x > y)), e)
          ∧ builtin_comp e [.num x, .num y] "=" = .ok (.bool (decide (x = y)), e)
          ∧ builtin_comp e [.num x, .num y] "!=" = .ok (.bool (decide (x ≠ y)), e)
          ∧ builtin_comp e [.num x, .num y] ">=" = .ok (.bool (decide (x ≥ y)), e)
          ∧ builtin_comp e [.num x, .num y] "<=" = .ok (.bool (decide (x ≤ y)), e))
      ∧ (∀ (a : List Lval) (comp : String), (¬ ∃ x y, a = [.num x, .num y]) →
          ∃ m, builtin_comp e a comp = .ok (lval_err m, e)) := by
  constructor
  · intro x y
    refine ⟨?_, ?_, ?_, ?_, ?_, ?_⟩ <;> simp [builtin_comp, Lval.num?]
  · intro a comp ha
    unfold builtin_comp
    split
    · rename_i vx vy
      split
      · rename_i x y hx hy
        cases vx <;> simp [Lval.num?] at hx
        cases vy <;> simp [Lval.num?] at hy
        subst hx; subst hy
        exact absurd ⟨_, _, rfl⟩ ha
      · exact ⟨_, rfl⟩
    · exact ⟨_, rfl⟩

theorem builtin_comp_relations_witness :
    builtin_comp lenv_new [.num 1, .num 2] "<" = .ok (.bool (decide ((1 : Int) < 2)), lenv_new)
      ∧ (∃ m, builtin_comp lenv_new [.num 1] "<" = .ok (lval_err m, lenv_new))
      ∧ (∃ m, builtin_comp lenv_new [.num 1, .str "a"] ">=" = .ok (lval_err m, lenv_new)) :=
  ⟨((builtin_comp_relations lenv_new).1 1 2).1,
   (builtin_comp_relations lenv_new).2 [.num 1] "<" (by simp),
   (builtin_comp_relations lenv_new).2 [.num 1, .str "a"] ">=" (by simp)⟩

theorem lval_call_loop_too_many (given total : Nat) (xs : List String) :
    ∀ (fenv : Lenv) (vs : List Lval), (∀ x ∈ xs, x ≠ "&") → xs.length < vs.length →
      lval_call_loop given total fenv (xs.map Lval.sym) vs
        = .fail (lval_err ("Function passed too many arguments. Got " ++ toString given
            ++ ", Expected " ++ toString total ++ ".")) := by
  induction xs with
  | nil =>
    intro fenv vs _ hlen
    cases vs with
    | nil => simp at hlen
    | cons v vs => simp [lval_call_loop]
  | cons x xs ih =>
    intro fenv vs hamp hlen
    cases vs with
    | nil => simp at hlen
    | cons v vs =>
      have hx : ¬ x = "&" := hamp x (List.mem_cons_self _ _)
      have hxs : ∀ y ∈ xs, y ≠ "&" := fun y hy => hamp y (List.mem_cons_of_mem _ hy)
      have hl : xs.length < vs.length := by simpa using hlen
      simp [lval_call_loop, hx, ih (lenv_put fenv x v) vs hxs hl]

/-- C19: too many arguments.  For a lambda whose formals are the symbols `xs` (none is `&`)
and an argument list `vs` longer than `xs`, `lval_call` returns the Error "Function passed too
many arguments. Got m, Expected n." with `m` the number of arguments and `n` the number of
formals, and the caller's environment is returned unchanged. -/
theorem lval_call_too_many_arguments (parse : String → Except String (List Lval))
    (ev : Evaluator) (e : Lenv) (env : List (String × Lval)) (xs : List String)
    (vs : List Lval) (body : Lval)
    (hamp : ∀ x ∈ xs, x ≠ "&") (hlen : xs.length < vs.length) :
    lval_call parse ev e (.lambda env (.qexpr (xs.map Lval.sym)) body) vs
      = .ok (lval_err ("Function passed too many arguments. Got " ++ toString vs.length
          ++ ", Expected " ++ toString xs.length ++ "."), e) := by
  simp [lval_call, lval_call_lambda, Lval.cells?,
    lval_call_loop_too_many _ _ xs (.root env) vs hamp hlen]

theorem lval_call_too_many_arguments_witness :
    (∀ x ∈ ["x", "y"], x ≠ "&") ∧ ["x", "y"].length < [Lval.num 1, Lval.num 2, Lval.num 3].length
      ∧ lval_call (fun _ => .error "") (lval_eval (fun _ => .error "") 2) root_env
          (.lambda [] (.qexpr [.sym "x", .sym "y"]) (.qexpr [.sym "x"]))
          [.num 1, .num 2, .num 3]
        = .ok (.err "Function passed too many arguments. Got 3, Expected 2.", root_env) :=
  ⟨by decide, by decide,
   lval_call_too_many_arguments (fun _ => .error "") (lval_eval (fun _ => .error "") 2) root_env
     [] ["x", "y"] [.num 1, .num 2, .num 3] (.qexpr [.sym "x"]) (by decide) (by decide)⟩

theorem all_syms_none_of_mem (a : List Lval) (c : Lval) (hc : c ∈ a) (hn : c.sym? = none) :
    all_syms a = none := by
  induction a with
  | nil => simp at hc
  | cons v vs ih =>
    rcases List.mem_cons.mp hc with h | h
    · subst h
      simp [all_syms, hn]
    · have := ih h
      simp only [all_syms, this]
      split <;> simp_all

theorem builtin_var_loop_def (names : List String) :
    ∀ (e : Lenv) (vals : List Lval),
      builtin_var_loop "def" e names vals
        = (names.zip vals).foldl (fun acc p => lenv_def acc p.1 p.2) e := by
  induction names with
  | nil => intro e vals; simp [builtin_var_loop]
  | cons s ss ih =>
    intro e vals
    cases vals with
    | nil => simp [builtin_var_loop]
    | cons v vs => simp [builtin_var_loop, ih]

theorem foldl_lenv_def_inner (names : List String) :
    ∀ (e : Lenv) (vals : List Lval),
      ((names.zip vals).foldl (fun acc p => lenv_def acc p.1 p.2) e).inner_scopes
        = e.inner_scopes := by
  induction names with
  | nil => intro e vals; simp
  | cons s ss ih =>
    intro e vals
    cases vals with
    | nil => simp
    | cons v vs => simp [ih, lenv_def_inner_scopes]

theorem foldl_lenv_def_root (names : List String) :
    ∀ (e : Lenv) (vals : List Lval),
      ((names.zip vals).foldl (fun acc p => lenv_def acc p.1 p.2) e).root_scope
        = bound_scope e.root_scope names vals := by
  induction names with
  | nil => intro e vals; simp [bound_scope]
  | cons s ss ih =>
    intro e vals
    cases vals with
    | nil => simp [bound_scope]
    | cons v vs => simp [ih, lenv_def_root_scope, bound_scope]

/-- C20: `def` is all-or-nothing on bad input.  `builtin_var` for `def` returns an Error and
the environment unchanged when its first argument is not a Q-expression, when some cell of that
Q-expression is not a symbol, and when the number of symbols differs from the number of values.
Otherwise it returns the empty S-expression and the environment obtained by one `lenv_def` per
symbol and value, in order: the scopes with a parent are unchanged, the root scope has received
the bindings, and a lookup at the root of a defined name gives the value paired with (the last
occurrence of) that name. -/
theorem builtin_var_def_all_or_nothing (e : Lenv) (first : Lval) (vals : List Lval) :
    ((∀ syms, first ≠ .qexpr syms) →
        builtin_var e (first :: vals) "def"
          = .ok (lval_err "Function 'def' passed incorrect type!", e))
      ∧ (∀ syms, first = .qexpr syms → (∃ c ∈ syms, c.sym? = none) →
          builtin_var e (first :: vals) "def"
            = .ok (lval_err "Function 'def' cannot define non-symbols!", e))
      ∧ (∀ names : List String, first = .qexpr (names.map Lval.sym) →
          names.length ≠ vals.length →
          builtin_var e (first :: vals) "def"
            = .ok (lval_err
                "Function 'def' cannot define incorrect number of values to symbols.", e))
      ∧ (∀ names : List String, first = .qexpr (names.map Lval.sym) →
          names.length = vals.length →
          ∃ e1, builtin_var e (first :: vals) "def" = .ok (.sexpr [], e1)
            ∧ e1 = (names.zip vals).foldl (fun acc p => lenv_def acc p.1 p.2) e
            ∧ e1.inner_scopes = e.inner_scopes
            ∧ e1.root_scope = bound_scope e.root_scope names vals
            ∧ (∀ (l1 l2 : List String) (w1 w2 : List Lval) (x : String) (a : Lval),
                names = l1 ++ x :: l2 → vals = w1 ++ a :: w2 → w1.length = l1.length →
                x ∉ l2 → lenv_get (.root e1.root_scope) x = a)) := by
  refine ⟨?_, ?_, ?_, ?_⟩
  · intro h
    cases first <;> first | rfl | exact absurd rfl (h _)
  · rintro syms rfl ⟨c, hc, hcn⟩
    simp [builtin_var, all_syms_none_of_mem syms c hc hcn]
  · rintro names rfl hlen
    simp [builtin_var, all_syms_map_sym, hlen]
  · rintro names rfl hlen
    refine ⟨_, ?_, rfl, foldl_lenv_def_inner names e vals, foldl_lenv_def_root names e vals, ?_⟩
    · simp [builtin_var, all_syms_map_sym, hlen, builtin_var_loop_def]
    · intro l1 l2 w1 w2 x a hn hv hw hx
      subst hn; subst hv
      rw [foldl_lenv_def_root]
      simp [lenv_get, scope_find_bound_scope_formal l1 l2 w1 w2 x a _ hw hx, lval_copy_eq]

theorem builtin_var_def_all_or_nothing_witness :
    builtin_var (.child [] root_env) [.num 1, .num 2] "def"
        = .ok (lval_err "Function 'def' passed incorrect type!", .child [] root_env)
      ∧ builtin_var (.child [] root_env) [.qexpr [.sym "x", .num 1], .num 2, .num 3] "def"
        = .ok (lval_err "Function 'def' cannot define non-symbols!", .child [] root_env)
      ∧ builtin_var (.child [] root_env) [.qexpr [.sym "x", .sym "y"], .num 2] "def"
        = .ok (lval_err "Function 'def' cannot define incorrect number of values to symbols.",
            .child [] root_env)
      ∧ (∃ e1, builtin_var (.child [] root_env) [.qexpr [.sym "x", .sym "y"], .num 2, .num 3] "def"
            = .ok (.sexpr [], e1)
          ∧ lenv_get (.root e1.root_scope) "y" = .num 3) :=
  ⟨(builtin_var_def_all_or_nothing (.child [] root_env) (.num 1) [.num 2]).1 (by simp),
   (builtin_var_def_all_or_nothing (.child [] root_env) (.qexpr [.sym "x", .num 1])
      [.num 2, .num 3]).2.1 _ rfl ⟨.num 1, by simp, rfl⟩,
   (builtin_var_def_all_or_nothing (.child [] root_env) (.qexpr [.sym "x", .sym "y"])
      [.num 2]).2.2.1 ["x", "y"] rfl (by decide),
   match (builtin_var_def_all_or_nothing (.child [] root_env) (.qexpr [.sym "x", .sym "y"])
      [.num 2, .num 3]).2.2.2 ["x", "y"] rfl rfl with
   | ⟨e1, h1, _, _, _, h5⟩ => ⟨e1, h1, h5 ["x"] [] [.num 2] [] "y" (.num 3) rfl rfl rfl (by simp)⟩⟩

/-! ## Unique bindings and termination of `lpow` -/

theorem scope_put_keys_bound (b : List (String × Lval)) (k : String) (v : Lval)
    (h : scope_binds b k) : (scope_put b k v).map Prod.fst = b.map Prod.fst := by
  induction b with
  | nil => simp [scope_binds] at h
  | cons hd tl ih =>
    obtain ⟨s, w⟩ := hd
    by_cases hs : s = k
    · simp [scope_put, hs]
    · have ht : scope_binds tl k := by
        simp only [scope_binds, List.map_cons, List.mem_cons] at h ⊢
        rcases h with h | h
        · exact absurd h.symm hs
        · exact h
      simp [scope_put, hs, ih ht]

theorem scope_put_new (b : List (String × Lval)) (k : String) (v : Lval)
    (h : ¬ scope_binds b k) : scope_put b k v = b ++ [(k, v)] := by
  induction b with
  | nil => simp [scope_put, lval_copy_eq]
  | cons hd tl ih =>
    obtain ⟨s, w⟩ := hd
    have hs : ¬ s = k := fun hsk => h (by simp [scope_binds, hsk])
    have ht : ¬ scope_binds tl k := fun hm => h (by
      simp only [scope_binds, List.map_cons, List.mem_cons] at hm ⊢
      exact Or.inr hm)
    simp [scope_put, hs, ih ht]

theorem scope_put_replace (l1 l2 : List (String × Lval)) (k : String) (w v : Lval)
    (h : ¬ scope_binds l1 k) :
    scope_put (l1 ++ (k, w) :: l2) k v = l1 ++ (k, v) :: l2 := by
  induction l1 with
  | nil => simp [scope_put, lval_copy_eq]
  | cons hd tl ih =>
    obtain ⟨s, u⟩ := hd
    have hs : ¬ s = k := fun hsk => h (by simp [scope_binds, hsk])
    have ht : ¬ scope_binds tl k := fun hm => h (by
      simp only [scope_binds, List.map_cons, List.mem_cons] at hm ⊢
      exact Or.inr hm)
    simp [scope_put, hs, ih ht]

theorem scope_put_nodup (b : List (String × Lval)) (k : String) (v : Lval)
    (h : (b.map Prod.fst).Nodup) : ((scope_put b k v).map Prod.fst).Nodup := by
  by_cases hb : scope_binds b k
  · rw [scope_put_keys_bound b k v hb]
    exact h
  · rw [scope_put_new b k v hb]
    simp only [List.map_append, List.map_cons, List.map_nil]
    refine List.Nodup.append h (by simp) ?_
    intro x hx hx1
    simp at hx1
    subst hx1
    exact hb hx

theorem lenv_def_binds_nodup (k : String) (v : Lval) :
    ∀ e : Lenv, (e.binds.map Prod.fst).Nodup →
      ((lenv_def e k v).binds.map Prod.fst).Nodup := by
  intro e h
  cases e with
  | root b => exact scope_put_nodup b k v h
  | child b p => exact h

/-- C22: unique bindings.  When the names of the local bindings of an environment are pairwise
distinct they are still so after `lenv_put`, `lenv_def` and `lenv_copy` (and so are those of
the root scope after `lenv_def`).  `lenv_put` on a bound name replaces the value at the position
of the name and changes nothing else; on an unbound name it appends one binding at the end; the
parent is untouched; and `lenv_copy` gives an equal environment. -/
theorem lenv_bindings_stay_unique (e : Lenv) (k : String) (v : Lval) :
    ((e.binds.map Prod.fst).Nodup →
        ((lenv_put e k v).binds.map Prod.fst).Nodup
          ∧ ((lenv_def e k v).binds.map Prod.fst).Nodup
          ∧ ((lenv_copy e).binds.map Prod.fst).Nodup)
      ∧ ((e.root_scope.map Prod.fst).Nodup →
          ((lenv_def e k v).root_scope.map Prod.fst).Nodup)
      ∧ (∀ (l1 l2 : List (String × Lval)) (w : Lval), e.binds = l1 ++ (k, w) :: l2 →
          ¬ scope_binds l1 k → (lenv_put e k v).binds = l1 ++ (k, v) :: l2)
      ∧ (¬ scope_binds e.binds k → (lenv_put e k v).binds = e.binds ++ [(k, v)])
      ∧ (lenv_put e k v).par = e.par
      ∧ lenv_copy e = e := by
  have hcopy : lenv_copy e = e := by
    cases e <;> simp [lenv_copy, copy_binds_eq]
  have hput : (lenv_put e k v).binds = scope_put e.binds k v := by
    cases e <;> rfl
  refine ⟨?_, ?_, ?_, ?_, ?_, hcopy⟩
  · intro h
    refine ⟨?_, lenv_def_binds_nodup k v e h, ?_⟩
    · rw [hput]
      exact scope_put_nodup _ k v h
    · rw [hcopy]
      exact h
  · intro h
    rw [lenv_def_root_scope]
    exact scope_put_nodup _ k v h
  · intro l1 l2 w hb hl1
    rw [hput, hb]
    exact scope_put_replace l1 l2 k w v hl1
  · intro h
    rw [hput]
    exact scope_put_new _ k v h
  · cases e <;> rfl

theorem lenv_bindings_stay_unique_witness :
    ((lenv_put (.child [("a", .num 1), ("b", .num 2)] lenv_new) "a" (.num 5)).binds.map
        Prod.fst).Nodup
      ∧ (lenv_put (.child [("a", .num 1), ("b", .num 2)] lenv_new) "a" (.num 5)).binds
          = [("a", .num 5), ("b", .num 2)]
      ∧ (lenv_put (.child [("a", .num 1), ("b", .num 2)] lenv_new) "c" (.num 5)).binds
          = [("a", .num 1), ("b", .num 2), ("c", .num 5)] :=
  ⟨((lenv_bindings_stay_unique (.child [("a", .num 1), ("b", .num 2)] lenv_new) "a"
      (.num 5)).1 (by decide)).1,
   (lenv_bindings_stay_unique (.child [("a", .num 1), ("b", .num 2)] lenv_new) "a"
      (.num 5)).2.2.1 [] [("b", .num 2)] (.num 1) rfl (by decide),
   (lenv_bindings_stay_unique (.child [("a", .num 1), ("b", .num 2)] lenv_new) "c"
      (.num 5)).2.2.2.1 (by decide)⟩

theorem lpow_loop_negative (fuel : Nat) :
    ∀ (r x y : Int), y < 0 → lpow_loop fuel r x y = Res.timeout := by
  induction fuel with
  | zero => intro r x y _; rfl
  | succ n ih =>
    intro r x y hy
    have hy0 : ¬ y = 0 := by omega
    have hy2 : y / 2 < 0 := by omega
    rw [lpow_loop, if_neg hy0]
    exact ih _ _ _ hy2

/-- C23: `lpow` does not terminate on a negative exponent.  For `y < 0` the arithmetic shift
`y >>= 1` keeps `y` negative and so never makes it 0: the loop of `lpow` uses up any amount of
fuel, `lpow x y` has no result, and the evaluation of `(^ 2 -1)` in the root environment does
not return.  For an exponent `y` of a `long` that is not negative `lpow` does return a
value. -/
theorem lpow_negative_exponent_never_ends :
    (∀ (fuel : Nat) (r x y : Int), y < 0 → lpow_loop fuel r x y = Res.timeout)
      ∧ (∀ x y : Int, y < 0 → lpow x y = Res.timeout)
      ∧ (∀ y : Int, y < 0 → y / 2 < 0 ∧ y / 2 ≠ 0)
      ∧ (∀ (parse : String → Except String (List Lval)) (fuel : Nat),
          lval_eval parse (fuel + 2) root_env (.sexpr [.sym "^", .num 2, .num (-1)])
            = Res.timeout)
      ∧ (∀ x y : Int, 0 ≤ y → y < 9223372036854775808 → ∃ r, lpow x y = .ok r) := by
  refine ⟨fun fuel r x y h => lpow_loop_negative fuel r x y h,
    fun x y h => lpow_loop_negative 64 1 x y h, ?_, ?_, ?_⟩
  · intro y hy
    omega
  · intro parse fuel
    rfl
  · intro x y h0 hy
    have hk : y.toNat < 2 ^ 63 := by
      have : (2 : Nat) ^ 63 = 9223372036854775808 := by norm_num
      omega
    obtain ⟨r1, hr1, _, _⟩ := lpow_loop_spec 63 1 x y.toNat hk
    rw [Int.toNat_of_nonneg h0] at hr1
    exact ⟨r1, hr1⟩

/-! ## No pending evaluation in results -/

theorem cells_settled_iff (cs : List Lval) :
    cells_settled cs = true ↔ ∀ c ∈ cs, closures_settled c = true := by
  induction cs with
  | nil => simp [cells_settled]
  | cons v vs ih => simp [cells_settled, ih]

theorem binds_settled_iff (b : List (String × Lval)) :
    binds_settled b = true ↔ ∀ p ∈ b, p.2.pending = false ∧ closures_settled p.2 = true := by
  induction b with
  | nil => simp [binds_settled]
  | cons hd tl ih =>
    obtain ⟨s, w⟩ := hd
    simp [binds_settled, ih, and_assoc]

theorem cells_settled_append (xs ys : List Lval) :
    cells_settled (xs ++ ys) = true ↔ cells_settled xs = true ∧ cells_settled ys = true := by
  simp only [cells_settled_iff, List.mem_append]
  constructor
  · intro h
    exact ⟨fun c hc => h c (Or.inl hc), fun c hc => h c (Or.inr hc)⟩
  · rintro ⟨h1, h2⟩ c (hc | hc)
    · exact h1 c hc
    · exact h2 c hc

theorem args_settled_cells (a : List Lval) (h : args_settled a) : cells_settled a = true :=
  (cells_settled_iff a).mpr (fun c hc => (h c hc).2)

theorem step_settled_ok (r : Lval) (e : Lenv) (hp : r.pending = false)
    (hs : closures_settled r = true) (he : env_settled e) : step_settled (.ok (r, e)) := by
  intro r1 e1 h
  simp at h
  obtain ⟨rfl, rfl⟩ := h
  exact ⟨hp, hs, he⟩

theorem step_settled_err (m : String) (e : Lenv) (he : env_settled e) :
    step_settled (.ok (lval_err m, e)) :=
  step_settled_ok _ _ rfl rfl he

theorem step_settled_undefined : step_settled Res.undefined := by
  intro r e1 h
  simp at h

theorem step_settled_timeout : step_settled Res.timeout := by
  intro r e1 h
  simp at h

theorem scope_find_settled (b : List (String × Lval)) (k : String) (v : Lval)
    (hb : binds_settled b = true) (h : scope_find b k = some v) :
    v.pending = false ∧ closures_settled v = true :=
  (binds_settled_iff b).mp hb (k, v) (scope_binds_of_find b k v h).2

theorem scope_put_settled (b : List (String × Lval)) (k : String) (v : Lval)
    (hb : binds_settled b = true) (hp : v.pending = false) (hs : closures_settled v = true) :
    binds_settled (scope_put b k v) = true := by
  induction b with
  | nil => simp [scope_put, binds_settled, lval_copy_eq, hp, hs]
  | cons hd tl ih =>
    obtain ⟨s, w⟩ := hd
    simp only [binds_settled, Bool.and_eq_true] at hb
    by_cases hsk : s = k
    · simp [scope_put, hsk, binds_settled, lval_copy_eq, hp, hs, hb.2]
    · simp only [scope_put, hsk, if_false, binds_settled, Bool.and_eq_true]
      exact ⟨hb.1, ih hb.2⟩

theorem lenv_get_settled (k : String) :
    ∀ e : Lenv, env_settled e →
      (lenv_get e k).pending = false ∧ closures_settled (lenv_get e k) = true := by
  intro e
  induction e with
  | root b =>
    intro he
    have hb : binds_settled b = true := he b (by simp [Lenv.scopes])
    cases hf : scope_find b k with
    | some v =>
      simp only [lenv_get, hf, lval_copy_eq]
      exact scope_find_settled b k v hb hf
    | none =>
      simp only [lenv_get, hf]
      exact ⟨rfl, rfl⟩
  | child b p ih =>
    intro he
    have hb : binds_settled b = true := he b (by simp [Lenv.scopes])
    cases hf : scope_find b k with
    | some v =>
      simp only [lenv_get, hf, lval_copy_eq]
      exact scope_find_settled b k v hb hf
    | none =>
      simp only [lenv_get, hf]
      exact ih (fun s hs => he s (by simp [Lenv.scopes, hs]))

theorem lenv_put_settled (e : Lenv) (k : String) (v : Lval) (he : env_settled e)
    (hp : v.pending = false) (hs : closures_settled v = true) :
    env_settled (lenv_put e k v) := by
  cases e with
  | root b =>
    intro s hsm
    simp [lenv_put, Lenv.scopes] at hsm
    subst hsm
    exact scope_put_settled b k v (he b (by simp [Lenv.scopes])) hp hs
  | child b p =>
    intro s hsm
    simp only [lenv_put, Lenv.scopes, List.mem_cons] at hsm
    rcases hsm with h | h
    · subst h
      exact scope_put_settled b k v (he b (by simp [Lenv.scopes])) hp hs
    · exact he s (by simp [Lenv.scopes, h])

theorem lenv_def_settled (k : String) (v : Lval) (hp : v.pending = false)
    (hs : closures_settled v = true) :
    ∀ e : Lenv, env_settled e → env_settled (lenv_def e k v) := by
  intro e
  induction e with
  | root b =>
    intro he
    exact lenv_put_settled (.root b) k v he hp hs
  | child b p ih =>
    intro he s hsm
    simp only [lenv_def, Lenv.scopes, List.mem_cons] at hsm
    rcases hsm with h | h
    · subst h
      exact he s (by simp [Lenv.scopes])
    · exact ih (fun t ht => he t (by simp [Lenv.scopes, ht])) s h

theorem builtin_var_loop_settled (func : String) (ss : List String) :
    ∀ (e : Lenv) (vs : List Lval), env_settled e → args_settled vs →
      env_settled (builtin_var_loop func e ss vs) := by
  induction ss with
  | nil => intro e vs he _; simpa [builtin_var_loop] using he
  | cons s ss ih =>
    intro e vs he hvs
    cases vs with
    | nil => simpa [builtin_var_loop] using he
    | cons v vs =>
      have hv := hvs v (List.mem_cons_self _ _)
      have hrest : args_settled vs := fun c hc => hvs c (List.mem_cons_of_mem _ hc)
      simp only [builtin_var_loop]
      apply ih _ _ _ hrest
      split <;> split
      · exact lenv_put_settled _ _ _ (lenv_def_settled _ _ hv.1 hv.2 _ he) hv.1 hv.2
      · exact lenv_put_settled _ _ _ he hv.1 hv.2
      · exact lenv_def_settled _ _ hv.1 hv.2 _ he
      · exact he

theorem builtin_op_loop_settled (op : String) (ys : List Int) :
    ∀ (x : Int) (r : Lval), builtin_op_loop op x ys = .ok r →
      r.pending = false ∧ closures_settled r = true := by
  induction ys with
  | nil =>
    intro x r h
    simp [builtin_op_loop] at h
    subst h
    exact ⟨rfl, rfl⟩
  | cons y ys ih =>
    intro x r h
    unfold builtin_op_loop at h
    repeat' split at h
    all_goals first
      | exact ih _ _ h
      | (simp at h; done)
      | (simp at h; subst h; exact ⟨rfl, rfl⟩)

theorem builtin_op_settled (e : Lenv) (a : List Lval) (op : String) (he : env_settled e) :
    step_settled (builtin_op e a op) := by
  unfold builtin_op
  split
  · exact step_settled_err _ _ he
  · exact step_settled_undefined
  · simp only []
    generalize hres : builtin_op_loop op _ _ = res
    cases res with
    | ok r =>
      have := builtin_op_loop_settled _ _ _ _ hres
      exact step_settled_ok _ _ this.1 this.2 he
    | undefined => exact step_settled_undefined
    | timeout => exact step_settled_timeout

theorem builtin_var_settled (e : Lenv) (a : List Lval) (func : String) (he : env_settled e)
    (ha : args_settled a) : step_settled (builtin_var e a func) := by
  unfold builtin_var
  split
  · exact step_settled_undefined
  · rename_i syms vals
    split
    · exact step_settled_err _ _ he
    · split
      · exact step_settled_ok _ _ rfl rfl
          (builtin_var_loop_settled _ _ _ _ he
            (fun c hc => ha c (List.mem_cons_of_mem _ hc)))
      · exact step_settled_err _ _ he
  · exact step_settled_err _ _ he

theorem builtin_head_settled (e : Lenv) (a : List Lval) (he : env_settled e)
    (ha : args_settled a) : step_settled (builtin_head e a) := by
  unfold builtin_head
  split
  · exact step_settled_err _ _ he
  · rename_i v vs
    have h := (ha _ (List.mem_singleton_self _)).2
    simp only [closures_settled, cells_settled, Bool.and_eq_true] at h
    exact step_settled_ok _ _ rfl (by simp [closures_settled, cells_settled, h.1]) he
  · exact step_settled_err _ _ he
  · exact step_settled_err _ _ he

theorem builtin_tail_settled (e : Lenv) (a : List Lval) (he : env_settled e)
    (ha : args_settled a) : step_settled (builtin_tail e a) := by
  unfold builtin_tail
  split
  · exact step_settled_err _ _ he
  · rename_i v vs
    have h := (ha _ (List.mem_singleton_self _)).2
    simp only [closures_settled, cells_settled, Bool.and_eq_true] at h
    exact step_settled_ok _ _ rfl (by simp [closures_settled, h.2]) he
  · exact step_settled_err _ _ he
  · exact step_settled_err _ _ he

theorem builtin_init_settled (e : Lenv) (a : List Lval) (he : env_settled e)
    (ha : args_settled a) : step_settled (builtin_init e a) := by
  unfold builtin_init
  split
  · exact step_settled_err _ _ he
  · rename_i v vs
    have h := (ha _ (List.mem_singleton_self _)).2
    simp only [closures_settled] at h
    refine step_settled_ok _ _ rfl ?_ he
    simp only [closures_settled]
    rw [cells_settled_iff] at h ⊢
    exact fun c hc => h c (List.mem_of_mem_dropLast hc)
  · exact step_settled_err _ _ he
  · exact step_settled_err _ _ he

theorem builtin_list_settled (e : Lenv) (a : List Lval) (he : env_settled e)
    (ha : args_settled a) : step_settled (builtin_list e a) :=
  step_settled_ok _ _ rfl (by simpa [closures_settled] using args_settled_cells a ha) he

theorem builtin_eval_settled (ev : Evaluator) (hev : keeps_settled ev) (e : Lenv)
    (a : List Lval) (he : env_settled e) (ha : cells_settled a = true) :
    step_settled (builtin_eval ev e a) := by
  unfold builtin_eval
  split
  · rename_i c
    simp only [cells_settled, closures_settled, Bool.and_true] at ha
    exact hev _ _ he (by simpa [closures_settled] using ha)
  · exact step_settled_err _ _ he
  · exact step_settled_err _ _ he

theorem join_cells_settled (a : List Lval) :
    ∀ cs, cells_settled a = true → join_cells a = some cs → cells_settled cs = true := by
  induction a with
  | nil =>
    intro cs _ h
    simp [join_cells] at h
    subst h
    rfl
  | cons v vs ih =>
    intro cs ha h
    simp only [cells_settled, Bool.and_eq_true] at ha
    cases v <;> simp only [join_cells] at h <;> try (simp at h)
    rename_i c
    cases hj : join_cells vs with
    | none => simp [hj] at h
    | some rest =>
      simp [hj] at h
      subst h
      rw [cells_settled_append]
      exact ⟨by simpa [closures_settled] using ha.1, ih rest ha.2 hj⟩

theorem builtin_join_settled (e : Lenv) (a : List Lval) (he : env_settled e)
    (ha : args_settled a) : step_settled (builtin_join e a) := by
  unfold builtin_join
  split
  · exact step_settled_err _ _ he
  · rename_i cs hj
    split
    · exact step_settled_undefined
    · exact step_settled_ok _ _ rfl
        (by simpa [closures_settled] using join_cells_settled _ cs (args_settled_cells _ ha) hj) he

theorem builtin_cons_settled (e : Lenv) (a : List Lval) (he : env_settled e)
    (ha : args_settled a) : step_settled (builtin_cons e a) := by
  unfold builtin_cons
  split
  · rename_i car cdr
    have h := args_settled_cells _ ha
    simp only [cells_settled, closures_settled, Bool.and_eq_true, Bool.and_true] at h
    exact step_settled_ok _ _ rfl (by simp [closures_settled, cells_settled, h.1, h.2]) he
  · exact step_settled_err _ _ he
  · exact step_settled_err _ _ he

theorem builtin_lambda_settled (e : Lenv) (a : List Lval) (he : env_settled e)
    (ha : args_settled a) : step_settled (builtin_lambda e a) := by
  unfold builtin_lambda
  split
  · rename_i fs body
    split
    · exact step_settled_err _ _ he
    · have h := args_settled_cells _ ha
      simp only [cells_settled, closures_settled, Bool.and_eq_true, Bool.and_true] at h
      exact step_settled_ok _ _ rfl
        (by simp [lval_lambda, closures_settled, binds_settled, h.1, h.2]) he
  · exact step_settled_err _ _ he
  · exact step_settled_err _ _ he
  · exact step_settled_err _ _ he

theorem builtin_comp_settled (e : Lenv) (a : List Lval) (comp : String) (he : env_settled e) :
    step_settled (builtin_comp e a comp) := by
  unfold builtin_comp
  split
  · split
    · exact step_settled_ok _ _ rfl rfl he
    · exact step_settled_err _ _ he
  · exact step_settled_err _ _ he

theorem builtin_eqv_settled (e : Lenv) (a : List Lval) (he : env_settled e) :
    step_settled (builtin_eqv e a) := by
  unfold builtin_eqv
  split
  · exact step_settled_err _ _ he
  · exact step_settled_undefined
  · exact step_settled_ok _ _ rfl rfl he

theorem builtin_if_settled (ev : Evaluator) (hev : keeps_settled ev) (e : Lenv)
    (a : List Lval) (he : env_settled e) (ha : cells_settled a = true) :
    step_settled (builtin_if ev e a) := by
  unfold builtin_if
  split
  · rename_i c t f
    simp only [cells_settled, closures_settled, Bool.and_eq_true, Bool.and_true] at ha
    split
    · exact hev _ _ he (by simpa [closures_settled] using ha.2.1)
    · exact hev _ _ he (by simpa [closures_settled] using ha.2.2)
  · exact step_settled_err _ _ he
  · exact step_settled_err _ _ he
  · exact step_settled_err _ _ he
  · exact step_settled_err _ _ he

theorem builtin_load_loop_settled (ev : Evaluator) (hev : keeps_settled ev) (xs : List Lval) :
    ∀ (e e1 : Lenv), env_settled e → cells_settled xs = true →
      builtin_load_loop ev e xs = .ok e1 → env_settled e1 := by
  induction xs with
  | nil =>
    intro e e1 he _ h
    simp [builtin_load_loop] at h
    subst h
    exact he
  | cons x xs ih =>
    intro e e1 he hxs h
    simp only [cells_settled, Bool.and_eq_true] at hxs
    simp only [builtin_load_loop] at h
    split at h
    · rename_i r e2 hx
      exact ih _ _ (hev _ _ he hxs.1 _ _ hx).2.2 hxs.2 h
    · simp at h
    · simp at h

theorem builtin_load_settled (parse : String → Except String (List Lval))
    (hparse : parse_settled parse) (ev : Evaluator) (hev : keeps_settled ev) (e : Lenv)
    (a : List Lval) (he : env_settled e) : step_settled (builtin_load parse ev e a) := by
  unfold builtin_load
  split
  · rename_i name
    split
    · rename_i forms hf
      generalize hres : builtin_load_loop ev e forms = res
      cases res with
      | ok e1 =>
        exact step_settled_ok _ _ rfl rfl
          (builtin_load_loop_settled ev hev forms e e1 he (hparse _ _ hf) hres)
      | undefined => exact step_settled_undefined
      | timeout => exact step_settled_timeout
    · exact step_settled_err _ _ he
  · exact step_settled_err _ _ he
  · exact step_settled_err _ _ he

theorem call_builtin_settled (parse : String → Except String (List Lval))
    (hparse : parse_settled parse) (ev : Evaluator) (hev : keeps_settled ev) (b : Builtin)
    (e : Lenv) (a : List Lval) (he : env_settled e) (ha : args_settled a) :
    step_settled (call_builtin parse ev b e a) := by
  have hc := args_settled_cells a ha
  cases b <;> simp only [call_builtin]
  · exact builtin_cons_settled e a he ha
  · exact builtin_list_settled e a he ha
  · exact builtin_head_settled e a he ha
  · exact builtin_tail_settled e a he ha
  · exact builtin_eval_settled ev hev e a he hc
  · exact builtin_join_settled e a he ha
  · exact builtin_init_settled e a he ha
  · exact builtin_var_settled e a _ he ha
  · exact builtin_var_settled e a _ he ha
  · exact builtin_lambda_settled e a he ha
  · exact builtin_if_settled ev hev e a he hc
  · exact builtin_op_settled e a _ he
  · exact builtin_op_settled e a _ he
  · exact builtin_op_settled e a _ he
  · exact builtin_op_settled e a _ he
  · exact builtin_op_settled e a _ he
  · exact builtin_op_settled e a _ he
  · exact builtin_eqv_settled e a he
  · exact builtin_comp_settled e a _ he
  · exact builtin_comp_settled e a _ he
  · exact builtin_comp_settled e a _ he
  · exact builtin_comp_settled e a _ he
  · exact builtin_comp_settled e a _ he
  · exact builtin_comp_settled e a _ he
  · exact builtin_load_settled parse hparse ev hev e a he

theorem lval_call_loop_settled (given total : Nat) (a : List Lval) :
    ∀ (fenv : Lenv) (formals : List Lval), env_settled fenv → cells_settled formals = true →
      args_settled a → bound_settled (lval_call_loop given total fenv formals a) := by
  induction a with
  | nil =>
    intro fenv formals he hf _
    simp only [lval_call_loop]
    exact ⟨he, hf⟩
  | cons val rest ih =>
    intro fenv formals he hf ha
    have hval := ha val (List.mem_cons_self _ _)
    have hrest : args_settled rest := fun c hc => ha c (List.mem_cons_of_mem _ hc)
    unfold lval_call_loop
    split
    · exact ⟨rfl, rfl⟩
    · rename_i s fs
      simp only [cells_settled, Bool.and_eq_true] at hf
      split
      · split
        · exact ⟨lenv_put_settled _ _ _ he rfl
            (by simpa [closures_settled] using args_settled_cells _ ha), rfl⟩
        · trivial
        · exact ⟨rfl, rfl⟩
      · exact ih _ _ (lenv_put_settled _ _ _ he hval.1 hval.2) hf.2 hrest
    · trivial

theorem lval_call_rest_settled (fenv : Lenv) (formals : List Lval) (he : env_settled fenv)
    (hf : cells_settled formals = true) : bound_settled (lval_call_rest fenv formals) := by
  unfold lval_call_rest
  split
  · exact ⟨he, rfl⟩
  · split
    · split
      · exact ⟨lenv_put_settled _ _ _ he rfl rfl, rfl⟩
      · trivial
      · exact ⟨rfl, rfl⟩
    · exact ⟨he, hf⟩
  · trivial

theorem env_settled_binds (e : Lenv) (he : env_settled e) : binds_settled e.binds = true := by
  cases e <;> exact he _ (by simp [Lenv.scopes, Lenv.binds])

theorem env_settled_par (e p : Lenv) (he : env_settled e) (hp : e.par = some p) :
    env_settled p := by
  cases e with
  | root b => simp [Lenv.par] at hp
  | child b q =>
    simp [Lenv.par] at hp
    subst hp
    exact fun s hs => he s (by simp [Lenv.scopes, hs])

theorem env_settled_child (b : List (String × Lval)) (e : Lenv) (hb : binds_settled b = true)
    (he : env_settled e) : env_settled (.child b e) := by
  intro s hs
  simp only [Lenv.scopes, List.mem_cons] at hs
  rcases hs with h | h
  · subst h
    exact hb
  · exact he s h

theorem lval_call_body_settled (ev : Evaluator) (hev : keeps_settled ev) (fenv : Lenv)
    (body : Lval) (he : env_settled fenv) (hb : closures_settled body = true) :
    step_settled (lval_call_body ev fenv body) := by
  unfold lval_call_body
  have hstep := builtin_eval_settled ev hev fenv [lval_copy body] he
    (by simp [cells_settled, lval_copy_eq, hb])
  generalize hres : builtin_eval ev fenv [lval_copy body] = res at hstep
  cases res with
  | ok p =>
    obtain ⟨r, fenv1⟩ := p
    have h := hstep r fenv1 rfl
    simp only []
    cases hp : fenv1.par with
    | some e1 => exact step_settled_ok _ _ h.1 h.2.1 (env_settled_par _ _ h.2.2 hp)
    | none => exact step_settled_undefined
  | undefined => exact step_settled_undefined
  | timeout => exact step_settled_timeout

theorem lval_call_lambda_settled (ev : Evaluator) (hev : keeps_settled ev) (e : Lenv)
    (env : List (String × Lval)) (formals body : Lval) (a : List Lval)
    (he : env_settled e) (hf : closures_settled (.lambda env formals body) = true)
    (ha : args_settled a) : step_settled (lval_call_lambda ev e env formals body a) := by
  simp only [closures_settled, Bool.and_eq_true] at hf
  obtain ⟨⟨henv, hformals⟩, hbody⟩ := hf
  unfold lval_call_lambda
  split
  · exact step_settled_undefined
  · rename_i fs hcells
    have hfs : cells_settled fs = true := by
      cases formals <;> simp [Lval.cells?] at hcells <;> subst hcells <;>
        simpa [closures_settled] using hformals
    have hroot : env_settled (.root env) := by
      intro s hs
      simp [Lenv.scopes] at hs
      subst hs
      exact henv
    have h1 := lval_call_loop_settled a.length fs.length a (.root env) fs hroot hfs ha
    generalize lval_call_loop a.length fs.length (.root env) fs a = b1 at h1
    cases b1 with
    | fail err => exact step_settled_ok _ _ h1.1 h1.2 he
    | undefined => exact step_settled_undefined
    | bound fenv left =>
      have h2 := lval_call_rest_settled fenv left h1.1 h1.2
      simp only []
      generalize lval_call_rest fenv left = b2 at h2
      cases b2 with
      | fail err => exact step_settled_ok _ _ h2.1 h2.2 he
      | undefined => exact step_settled_undefined
      | bound fenv1 left1 =>
        simp only []
        unfold lval_call_finish
        split
        · exact lval_call_body_settled ev hev _ body
            (env_settled_child _ _ (env_settled_binds _ h2.1) he) hbody
        · refine step_settled_ok _ _ rfl ?_ he
          rw [lval_copy_eq]
          simp only [closures_settled, Bool.and_eq_true]
          refine ⟨⟨env_settled_binds _ h2.1, ?_⟩, hbody⟩
          cases formals <;> simp [Lval.cells?] at hcells <;>
            simpa [Lval.setCells, closures_settled] using h2.2

theorem lval_call_settled (parse : String → Except String (List Lval))
    (hparse : parse_settled parse) (ev : Evaluator) (hev : keeps_settled ev) (e : Lenv)
    (f : Lval) (a : List Lval) (he : env_settled e) (hf : closures_settled f = true)
    (ha : args_settled a) : step_settled (lval_call parse ev e f a) := by
  unfold lval_call
  split
  · exact call_builtin_settled parse hparse ev hev _ e a he ha
  · exact lval_call_lambda_settled ev hev e _ _ _ a he hf ha
  · exact step_settled_undefined

theorem eval_cells_settled (ev : Evaluator) (hev : keeps_settled ev) (cs : List Lval) :
    ∀ (e : Lenv) (rs : List Lval) (e1 : Lenv), env_settled e → cells_settled cs = true →
      eval_cells ev e cs = .ok (rs, e1) → args_settled rs ∧ env_settled e1 := by
  induction cs with
  | nil =>
    intro e rs e1 he _ h
    simp [eval_cells] at h
    obtain ⟨rfl, rfl⟩ := h
    exact ⟨fun c hc => by simp at hc, he⟩
  | cons c cs ih =>
    intro e rs e1 he hcs h
    simp only [cells_settled, Bool.and_eq_true] at hcs
    simp only [eval_cells] at h
    split at h
    · rename_i c1 e2 hc
      have h1 := hev _ _ he hcs.1 _ _ hc
      split at h
      · rename_i cs1 e3 hrest
        simp at h
        obtain ⟨rfl, rfl⟩ := h
        have h2 := ih _ _ _ h1.2.2 hcs.2 hrest
        refine ⟨?_, h2.2⟩
        intro x hx
        rcases List.mem_cons.mp hx with hx | hx
        · subst hx
          exact ⟨h1.1, h1.2.1⟩
        · exact h2.1 x hx
      · simp at h
      · simp at h
    · simp at h
    · simp at h

theorem lval_eval_sexpr_settled (parse : String → Except String (List Lval))
    (hparse : parse_settled parse) (ev : Evaluator) (hev : keeps_settled ev) (e : Lenv)
    (cell : List Lval) (he : env_settled e) (hc : cells_settled cell = true) :
    step_settled (lval_eval_sexpr parse ev e cell) := by
  unfold lval_eval_sexpr
  split
  · rename_i cs e1 hcells
    have h := eval_cells_settled ev hev cell e cs e1 he hc hcells
    split
    · rename_i err hfind
      have hmem := List.mem_of_find?_eq_some hfind
      exact step_settled_ok _ _ (h.1 err hmem).1 (h.1 err hmem).2 h.2
    · split
      · exact step_settled_ok _ _ rfl rfl h.2
      · rename_i x _
        have hx := h.1 x (List.mem_singleton_self _)
        exact step_settled_ok _ _ hx.1 hx.2 h.2
      · split
        · exact lval_call_settled parse hparse ev hev e1 _ _ h.2
            (h.1 _ (List.mem_cons_self _ _)).2
            (fun c hcm => h.1 c (List.mem_cons_of_mem _ hcm))
        · exact step_settled_err _ _ h.2
  · exact step_settled_undefined
  · exact step_settled_timeout

theorem lval_eval_settled (parse : String → Except String (List Lval))
    (hparse : parse_settled parse) : ∀ fuel : Nat, keeps_settled (lval_eval parse fuel) := by
  intro fuel
  induction fuel with
  | zero =>
    intro e v _ _
    simp only [lval_eval]
    exact step_settled_timeout
  | succ n ih =>
    intro e v he hv
    unfold lval_eval
    split
    · rename_i s
      have := lenv_get_settled s e he
      exact step_settled_ok _ _ this.1 this.2 he
    · exact lval_eval_sexpr_settled parse hparse _ ih e _ he
        (by simpa [closures_settled] using hv)
    · rename_i hsym hsexpr
      refine step_settled_ok _ _ ?_ hv he
      cases v <;> first | rfl | exact absurd rfl (hsym _) | exact absurd rfl (hsexpr _)


theorem root_env_settled : env_settled root_env := by
  unfold env_settled
  decide

/-- C21 (amended): no pending evaluation in results.  Start from an environment in which no
stored value, the environments of stored lambdas included, is a symbol or a non-empty
S-expression, and evaluate an expression in which no lambda carries such a value in its
environment (the loader reading only such forms).  Whenever `lval_eval` returns, its result is
not a symbol and not a non-empty S-expression, and the environment returned satisfies the same
condition.  The root environment built by `lenv_add_builtins` satisfies the condition. -/
theorem lval_eval_result_not_pending (parse : String → Except String (List Lval))
    (fuel : Nat) (e e1 : Lenv) (v r : Lval)
    (hparse : parse_settled parse) (he : env_settled e) (hv : closures_settled v = true)
    (h : lval_eval parse fuel e v = .ok (r, e1)) :
    (r.pending = false ∧ closures_settled r = true ∧ env_settled e1)
      ∧ (∀ s, r ≠ .sym s) ∧ (∀ c cs, r ≠ .sexpr (c :: cs))
      ∧ env_settled root_env := by
  have hr := lval_eval_settled parse hparse fuel e v he hv r e1 h
  refine ⟨hr, ?_, ?_, root_env_settled⟩
  · intro s hs
    rw [hs] at hr
    simp [Lval.pending] at hr
  · intro c cs hs
    rw [hs] at hr
    simp [Lval.pending] at hr

theorem lval_eval_result_not_pending_witness :
    parse_settled (fun _ => .error "") ∧ env_settled root_env
      ∧ closures_settled (.sexpr [.sym "head", .qexpr [.sym "x", .sym "y"]]) = true
      ∧ lval_eval (fun _ => .error "") 2 root_env
          (.sexpr [.sym "head", .qexpr [.sym "x", .sym "y"]])
        = .ok (.qexpr [.sym "x"], root_env)
      ∧ (Lval.qexpr [.sym "x"]).pending = false :=
  ⟨fun _ _ h => by simp at h, root_env_settled, rfl, rfl,
    (lval_eval_result_not_pending (fun _ => .error "") 2 root_env root_env
      (.sexpr [.sym "head", .qexpr [.sym "x", .sym "y"]]) (.qexpr [.sym "x"])
      (fun _ _ h => by simp at h) root_env_settled rfl rfl).1.1⟩

/-- C21, as stated, fails: in the root environment, applying to 1 a lambda whose own
environment binds `y` to the symbol `z` and whose body is `{y}` returns the symbol `z`. -/
theorem lval_eval_pending_result_counterexample :
    env_settled root_env
      ∧ lval_eval (fun _ => .error "") 3 root_env
          (.sexpr [.lambda [("y", .sym "z")] (.qexpr [.sym "x"]) (.qexpr [.sym "y"]), .num 1])
        = .ok (.sym "z", root_env)
      ∧ (Lval.sym "z").pending = true :=
  ⟨root_env_settled, rfl, rfl⟩

/-! ## Argument lists of native operations -/

theorem lval_eval_sexpr_with_guarded (parse : String → Except String (List Lval)) (d : Step)
    (ev : Evaluator) (e : Lenv) (cell : List Lval) :
    lval_eval_sexpr_with (call_builtin_guarded parse d) ev e cell
      = lval_eval_sexpr parse ev e cell := by
  unfold lval_eval_sexpr_with lval_eval_sexpr
  cases eval_cells ev e cell with
  | undefined => rfl
  | timeout => rfl
  | ok p =>
    obtain ⟨cs, e1⟩ := p
    simp only []
    cases cs.find? Lval.isErr with
    | some err => rfl
    | none =>
      match cs with
      | [] => rfl
      | [x] => rfl
      | f :: a :: rest =>
        simp only []
        cases f <;> rfl

theorem lval_eval_with_guarded (parse : String → Except String (List Lval)) (d : Step) :
    ∀ fuel : Nat, lval_eval_with (call_builtin_guarded parse d) fuel = lval_eval parse fuel := by
  intro fuel
  induction fuel with
  | zero => rfl
  | succ n ih =>
    funext e v
    cases v <;> simp only [lval_eval_with, lval_eval]
    rw [ih, lval_eval_sexpr_with_guarded]

theorem lval_eval_sexpr_with_call_builtin (parse : String → Except String (List Lval))
    (ev : Evaluator) (e : Lenv) (cell : List Lval) :
    lval_eval_sexpr_with (call_builtin parse) ev e cell = lval_eval_sexpr parse ev e cell := by
  unfold lval_eval_sexpr_with lval_eval_sexpr
  cases eval_cells ev e cell with
  | undefined => rfl
  | timeout => rfl
  | ok p =>
    obtain ⟨cs, e1⟩ := p
    simp only []
    cases cs.find? Lval.isErr with
    | some err => rfl
    | none =>
      match cs with
      | [] => rfl
      | [x] => rfl
      | f :: a :: rest =>
        simp only []
        cases f <;> rfl

theorem lval_eval_with_call_builtin (parse : String → Except String (List Lval)) :
    ∀ fuel : Nat, lval_eval_with (call_builtin parse) fuel = lval_eval parse fuel := by
  intro fuel
  induction fuel with
  | zero => rfl
  | succ n ih =>
    funext e v
    cases v <;> simp only [lval_eval_with, lval_eval]
    rw [ih, lval_eval_sexpr_with_call_builtin]

theorem all_nums_cons_ne (x : Lval) (rest : List Lval) : all_nums (x :: rest) ≠ some [] := by
  simp only [all_nums]
  split <;> simp

/-- C24: native operations get a non-empty argument list.  `lval_eval_with` is `lval_eval`
with the dispatch of native operations as a parameter (first part).  Replacing the outcome of
every native operation on an empty argument list by an arbitrary outcome `d` changes no result
of the evaluator: no application reached through `lval_eval` passes an empty list.  In
`lval_call` the binding loop does nothing without arguments, and at `&` the list given to
`builtin_list` holds the arguments that remain, at least one.  On a non-empty list the reads of
the first argument in `builtin_op`, `builtin_join` and `builtin_var` are in range, and
`builtin_eqv` guards the empty list itself. -/
theorem builtins_get_nonempty_arguments (parse : String → Except String (List Lval)) :
    (∀ fuel : Nat, lval_eval_with (call_builtin parse) fuel = lval_eval parse fuel)
      ∧ (∀ (d : Step) (fuel : Nat) (e : Lenv) (v : Lval),
          lval_eval_with (call_builtin_guarded parse d) fuel e v = lval_eval parse fuel e v)
      ∧ (∀ (given total : Nat) (fenv : Lenv) (formals : List Lval),
          lval_call_loop given total fenv formals [] = .bound fenv formals)
      ∧ (∀ (given total : Nat) (fenv e : Lenv) (n : String) (val : Lval) (rest : List Lval),
          lval_call_loop given total fenv [.sym "&", .sym n] (val :: rest)
              = .bound (lenv_put fenv n (.qexpr (val :: rest))) []
            ∧ builtin_list e (val :: rest) = .ok (.qexpr (val :: rest), e))
      ∧ (∀ (e : Lenv) (x : Lval) (rest : List Lval) (func : String),
          all_nums (x :: rest) ≠ some []
            ∧ (∃ r, builtin_join e (x :: rest) = .ok r)
            ∧ (∃ r, builtin_var e (x :: rest) func = .ok r)
            ∧ builtin_eqv e [] = .ok (lval_err "'eqv?' expects 2 arguments", e)) := by
  refine ⟨lval_eval_with_call_builtin parse, ?_, ?_, ?_, ?_⟩
  · intro d fuel e v
    rw [lval_eval_with_guarded]
  · intro given total fenv formals
    simp [lval_call_loop]
  · intro given total fenv e n val rest
    exact ⟨by simp [lval_call_loop], rfl⟩
  · intro e x rest func
    refine ⟨all_nums_cons_ne x rest, ?_, ?_, rfl⟩
    · unfold builtin_join
      split
      · exact ⟨_, rfl⟩
      · exact ⟨_, rfl⟩
    · unfold builtin_var
      split
      · rename_i h
        simp at h
      · split
        · exact ⟨_, rfl⟩
        · split
          · exact ⟨_, rfl⟩
          · exact ⟨_, rfl⟩
      · exact ⟨_, rfl⟩

theorem builtins_get_nonempty_arguments_witness :
    lval_eval_with (call_builtin_guarded (fun _ => .error "") Res.timeout) 3 root_env
        (.sexpr [.sym "+", .num 1, .num 2])
      = lval_eval (fun _ => .error "") 3 root_env (.sexpr [.sym "+", .num 1, .num 2]) :=
  (builtins_get_nonempty_arguments (fun _ => .error "")).2.1 Res.timeout 3 root_env
    (.sexpr [.sym "+", .num 1, .num 2])

end CLispy
